import Mathlib

/-!
Shallow embedding of the video-processing pipelines of
`backend/videos/utils.py` (independent-rendition mode) and
`backend/hls_videos/hls_processor.py` (adaptive-streaming / HLS mode),
together with the Django model state they mutate
(`backend/videos/models.py`, `backend/hls_videos/models.py`).

External effects (S3 transfers, the ffmpeg subprocess, media probing) are
modelled by explicit "world" records describing their outcomes; database
rows are explicit Lean structures; a pipeline run is a pure function from
a world, a preset catalog and an initial state to a final state.
-/

set_option autoImplicit false

namespace VideoApp

/-- Resolution preset configuration: one value of the `VIDEO_RESOLUTIONS`
mapping, `{'width': _, 'height': _, 'bitrate': _}`. -/
structure PresetConfig where
  width : Nat
  height : Nat
  bitrate : String
  deriving Repr, DecidableEq

/-- Preset catalog: the `resolutions` dict, as an insertion-ordered
association list of label ↦ config (Python dicts preserve insertion
order and have pairwise-distinct keys). -/
abbrev Catalog := List (String × PresetConfig)

/-! ### Model of the Python string and int primitives used by the code -/

/-- Model of `s.replace('k', '')`: with a single-character pattern and an
empty replacement, Python `str.replace` deletes every occurrence of that
character. -/
def pyRemoveK (s : String) : String :=
  ⟨s.data.filter (fun c => c ≠ 'k')⟩

/-- Character-level whitespace test used for `int()`'s argument stripping
(ASCII space, tab, carriage return, line feed). -/
def pyWs (c : Char) : Bool := c.isWhitespace

/-- Strip leading and trailing whitespace from a character list, as
Python `int()` does to its string argument. -/
def pyStripChars (cs : List Char) : List Char :=
  ((cs.dropWhile pyWs).reverse.dropWhile pyWs).reverse

/-- Validity of a Python integer digit run: one or more ASCII digits, with
single underscores allowed only between digits. -/
def digitRunValid : List Char → Bool
  | [] => false
  | [c] => c.isDigit
  | c :: d :: rest =>
    c.isDigit && (if d = '_' then digitRunValid rest else digitRunValid (d :: rest))

/-- Value of a decimal digit list, most significant digit first. -/
def decValue (cs : List Char) : Nat :=
  cs.foldl (fun a c => a * 10 + (c.toNat - 48)) 0

/-- Integer parsing on a stripped character list: optional sign followed by
a valid digit run (underscores dropped for the value). -/
def pyIntOfChars (cs : List Char) : Option Int :=
  match cs with
  | [] => none
  | c :: rest =>
    if c = '+' then
      if digitRunValid rest then some (Int.ofNat (decValue (rest.filter (fun x => x ≠ '_')))) else none
    else if c = '-' then
      if digitRunValid rest then some (-(Int.ofNat (decValue (rest.filter (fun x => x ≠ '_'))))) else none
    else
      if digitRunValid cs then some (Int.ofNat (decValue (cs.filter (fun x => x ≠ '_')))) else none

/-- Model of Python `int(s)` on a string: strip whitespace, then parse an
optionally signed decimal numeral; `none` models the `ValueError` raise. -/
def pyInt (s : String) : Option Int :=
  pyIntOfChars (pyStripChars s.data)

/-- Message of the `ValueError` raised by `int()` on a non-numeral. -/
def intParseErrMsg (s : String) : String :=
  "invalid literal for int() with base 10: " ++ s

/-! ### Master playlist synthesis (`HLSProcessor._create_master_playlist`) -/

/-- Bandwidth computation of `_create_master_playlist` line 227:
`int(res_config['bitrate'].replace('k', '')) * 1000`; `none` models the
raise on an unparsable remainder. -/
def bandwidthOf (bitrate : String) : Option Int :=
  (pyInt (pyRemoveK bitrate)).map (fun n => n * 1000)

/-- One `#EXT-X-STREAM-INF` entry of the master playlist: the resolution
label it came from, the computed bandwidth, the declared pixel size, and
the two emitted text lines. -/
structure StreamEntry where
  resKey : String
  bandwidth : Int
  width : Nat
  height : Nat
  infoLine : String
  uriLine : String
  deriving Repr, DecidableEq

/-- Entry text for one preset, as written by `_create_master_playlist`. -/
def mkStreamEntry (key : String) (cfg : PresetConfig) (bw : Int) : StreamEntry :=
  { resKey := key
    bandwidth := bw
    width := cfg.width
    height := cfg.height
    infoLine := "#EXT-X-STREAM-INF:BANDWIDTH=" ++ toString bw ++ ",RESOLUTION="
      ++ toString cfg.width ++ "x" ++ toString cfg.height
    uriLine := key ++ "/playlist.m3u8" }

/-- Stream-info entries of the master playlist, in emission order: the
loop `for res_key, res_config in resolutions.items()` of
`_create_master_playlist`, iterating the catalog in its own (insertion)
order; errors with the `ValueError` message when a bandwidth fails to
parse. -/
def streamEntries : Catalog → Except String (List StreamEntry)
  | [] => Except.ok []
  | (key, cfg) :: rest =>
    match bandwidthOf cfg.bitrate with
    | none => Except.error (intParseErrMsg (pyRemoveK cfg.bitrate))
    | some bw =>
      match streamEntries rest with
      | Except.error e => Except.error e
      | Except.ok es => Except.ok (mkStreamEntry key cfg bw :: es)

/-- Full text lines of `master.m3u8` (header, version, then the entry
lines), modelling the writes of `_create_master_playlist`. -/
def createMasterPlaylistLines (cat : Catalog) : Except String (List String) :=
  match streamEntries cat with
  | Except.error e => Except.error e
  | Except.ok es =>
    Except.ok ("#EXTM3U" :: "#EXT-X-VERSION:3" :: (es.map (fun e => [e.infoLine, e.uriLine])).flatten)

/-! ### Encoder invocation (`subprocess.run` on the ffmpeg command) -/

/-- Behaviour of one external ffmpeg process, as the world determines it:
how long it would run, and with what exit code and stderr text it would
finish. -/
structure EncBehavior where
  runtime : Nat
  exitCode : Int
  stderr : String
  deriving Repr, DecidableEq

/-- Outcome of `subprocess.run`: the process finished (a
`CompletedProcess` with exit code and captured stderr), or
`subprocess.TimeoutExpired` was raised. -/
inductive RunOutcome where
  | finished (exitCode : Int) (stderr : String)
  | timedOut
  deriving Repr, DecidableEq

/-- Semantics of `subprocess.run(cmd, capture_output=True, text=True, ...)`
with an optional timeout: with a timeout `t`, a process needing more than
`t` seconds is forcibly terminated and reported via `TimeoutExpired`;
with no timeout the call blocks until the process finishes, however long
that takes. -/
def subprocessRun (tmax : Option Nat) (b : EncBehavior) : RunOutcome :=
  match tmax with
  | some t => if t < b.runtime then RunOutcome.timedOut else RunOutcome.finished b.exitCode b.stderr
  | none => RunOutcome.finished b.exitCode b.stderr

/-- Encoder invocation of the HLS pipeline
(`hls_processor.py` line 173): `subprocess.run(..., timeout=3600)`. -/
def hlsFfmpegRun (b : EncBehavior) : RunOutcome :=
  subprocessRun (some 3600) b

/-- Encoder invocation of the independent-rendition pipeline
(`videos/utils.py` line 147): `subprocess.run(ffmpeg_cmd, capture_output=True, text=True)`
— no timeout argument. -/
def videosFfmpegRun (b : EncBehavior) : RunOutcome :=
  subprocessRun none b

/-! ### Scratch workspaces -/

/-- Identity of a scratch directory created with `tempfile.mkdtemp` (which
guarantees a fresh, unique path): the HLS pipeline's main workspace, the
independent pipeline's main workspace, or the per-resolution output
directory of `VideoProcessor._process_single_resolution`. -/
inductive ScratchDir where
  | hlsMain
  | videosMain
  | videosOut (resKey : String)
  deriving Repr, DecidableEq

/-- Result of probing the source media with moviepy (`_get_video_info` /
`get_video_info`); `none` at the use sites models the probe failing. -/
structure ProbeInfo where
  duration : Nat
  fileSize : Nat
  deriving Repr, DecidableEq

/-! ### HLS mode: Django rows, state, world -/

/-- Row of `hls_videos.models.HLSVideo`, restricted to the fields the
pipeline reads or writes.  `error_message` and `master_playlist_s3_key`
are `blank=True` text columns defaulting to the empty string. -/
structure HLSVideoRec where
  id : Nat
  processing_status : String
  processing_started_at : Option Nat
  processed_at : Option Nat
  error_message : String
  master_playlist_s3_key : String
  duration : Option Nat
  file_size : Option Nat
  deriving Repr, DecidableEq

/-- Row of `hls_videos.models.HLSVariant` for one video (the foreign key
is implicit: a state holds the variants of its own video only).
`segments_s3_key_base` embeds the model's segment-prefix column. -/
structure HLSVariantRec where
  resolution : String
  width : Nat
  height : Nat
  bitrate : String
  playlist_s3_key : String
  segments_s3_key_base : String
  segment_duration : Nat
  segment_count : Nat
  processing_started_at : Option Nat
  processing_completed_at : Option Nat
  processing_failed_at : Option Nat
  error_message : String
  deriving Repr, DecidableEq

/-- Mutable state of one HLS pipeline run: the video row, its variant
rows, the set of live scratch directories, and a logical clock supplying
`timezone.now()` values. -/
structure HLSState where
  video : HLSVideoRec
  variants : List HLSVariantRec
  live : List ScratchDir
  clock : Nat
  deriving Repr, DecidableEq

/-- Outcomes of the external effects an HLS run performs: whether the S3
download succeeds, the probe result, the behaviour of the encoder per
resolution label, the number of segment files each encode produces, and
which S3 uploads succeed (keyed by object key). -/
structure HLSWorld where
  downloadOk : Bool
  probe : Option ProbeInfo
  enc : String → EncBehavior
  segs : String → Nat
  uploadOk : String → Bool

/-- Master playlist object key, `f"hls_videos/{video_id}/master.m3u8"`. -/
def masterKey (vid : Nat) : String :=
  "hls_videos/" ++ toString vid ++ "/master.m3u8"

/-- Variant playlist object key,
`f"hls_videos/{video.id}/{res_key}/playlist.m3u8"`. -/
def variantPlaylistKey (vid : Nat) (k : String) : String :=
  "hls_videos/" ++ toString vid ++ "/" ++ k ++ "/playlist.m3u8"

/-- Variant segment key base, `f"hls_videos/{video.id}/{res_key}/"`. -/
def variantSegBase (vid : Nat) (k : String) : String :=
  "hls_videos/" ++ toString vid ++ "/" ++ k ++ "/"

/-- Zero-padding of `%03d` in the segment filename pattern. -/
def pad3 (n : Nat) : String :=
  let s := toString n
  if s.length < 3 then String.mk (List.replicate (3 - s.length) '0') ++ s else s

/-- Segment filename `segment_%03d.ts` for index `i`. -/
def segmentName (i : Nat) : String :=
  "segment_" ++ pad3 i ++ ".ts"

/-- Lookup of the variant row with a given resolution label
(`HLSVariant.objects.get/filter` on `(video, resolution)`; the
`unique_together` constraint makes the row unique). -/
def findVariant (k : String) (t : List HLSVariantRec) : Option HLSVariantRec :=
  t.find? (fun r => r.resolution = k)

/-- Update of the variant row with a given resolution label. -/
def setVariant (k : String) (f : HLSVariantRec → HLSVariantRec) (t : List HLSVariantRec) :
    List HLSVariantRec :=
  t.map (fun r => if r.resolution = k then f r else r)

/-- Defaults of `HLSVariant.objects.get_or_create` for a fresh row
(`hls_processor.py` lines 131-141). -/
def newVariant (k : String) (cfg : PresetConfig) (clock : Nat) : HLSVariantRec :=
  { resolution := k
    width := cfg.width
    height := cfg.height
    bitrate := cfg.bitrate
    playlist_s3_key := ""
    segments_s3_key_base := ""
    segment_duration := 10
    segment_count := 0
    processing_started_at := some clock
    processing_completed_at := none
    processing_failed_at := none
    error_message := "" }

/-- One `get_or_create` call of the variant-planning loop: create the row
with defaults if absent, leave it untouched if present. -/
def getOrCreateVariant (k : String) (cfg : PresetConfig) (st : HLSState) : HLSState :=
  match findVariant k st.variants with
  | some _ => st
  | none => { st with variants := st.variants ++ [newVariant k cfg st.clock], clock := st.clock + 1 }

/-- Variant-planning loop of `_process_all_variants_ffmpeg` (lines
129-141): one `get_or_create` per catalog entry, in catalog order. -/
def planVariants (cat : Catalog) (st : HLSState) : HLSState :=
  cat.foldl (fun s kc => getOrCreateVariant kc.1 kc.2 s) st

/-- Per-resolution encode loop of `_process_all_variants_ffmpeg` (lines
144-184): run ffmpeg with a 3600-second timeout for each preset in
catalog order, aborting with `False` on the first non-zero exit
(`TimeoutExpired` is caught by the surrounding handler, also yielding
`False`).  Variant rows are not touched on failure. -/
def runVariantsLoop (w : HLSWorld) : Catalog → Bool
  | [] => true
  | (k, _) :: rest =>
    match hlsFfmpegRun (w.enc k) with
    | RunOutcome.timedOut => false
    | RunOutcome.finished ec _ => if ec ≠ 0 then false else runVariantsLoop w rest

/-- Bookkeeping pass `_update_variant_info`: for each catalog key, fetch
the variant row (`objects.get`; `none` models the `DoesNotExist` raise,
caught by `_process_all_variants_ffmpeg`'s handler), store the counted
segment files, the deterministic S3 keys and a completion timestamp. -/
def updateVariantsInfo (vid : Nat) (w : HLSWorld) : List String → HLSState → Option HLSState
  | [], st => some st
  | k :: ks, st =>
    match findVariant k st.variants with
    | none => none
    | some _ =>
      updateVariantsInfo vid w ks
        { st with
          variants := setVariant k (fun r =>
            { r with
              segment_count := w.segs k
              playlist_s3_key := variantPlaylistKey vid k
              segments_s3_key_base := variantSegBase vid k
              processing_completed_at := some st.clock }) st.variants
          clock := st.clock + 1 }

/-- Upload of one variant's segment files (`segment_*.ts`, sorted, hence
indices `0 .. segment_count - 1`): true iff every segment transfer
succeeds. -/
def segmentsUploadOk (w : HLSWorld) (v : HLSVariantRec) : Bool :=
  (List.range v.segment_count).all (fun i => w.uploadOk (v.segments_s3_key_base ++ segmentName i))

/-- Per-variant loop of `_upload_hls_to_s3` (lines 254-279): upload the
variant playlist then its segments, returning `False` on the first
failing transfer. -/
def uploadVariantsLoop (w : HLSWorld) : List HLSVariantRec → Bool
  | [] => true
  | v :: rest =>
    if w.uploadOk v.playlist_s3_key && segmentsUploadOk w v then uploadVariantsLoop w rest
    else false

/-- Insertion step of the width-ascending ordering. -/
def insertByWidth (v : HLSVariantRec) : List HLSVariantRec → List HLSVariantRec
  | [] => [v]
  | x :: xs => if v.width < x.width then v :: x :: xs else x :: insertByWidth v xs

/-- Ordering `self.video.variants.all()` applies through
`HLSVariant.Meta.ordering = ['width']`. -/
def sortByWidth (t : List HLSVariantRec) : List HLSVariantRec :=
  t.foldr insertByWidth []

/-- Stage-out `_upload_hls_to_s3`: upload the master playlist and, if that
succeeds, immediately persist its key on the video row (lines 245-249) —
before any variant playlist or segment is transferred; then walk the
variants (read back sorted by width), aborting on the first failing
transfer. -/
def uploadHLSToS3 (w : HLSWorld) (st : HLSState) : Bool × HLSState :=
  if w.uploadOk (masterKey st.video.id) then
    let st1 : HLSState :=
      { st with video := { st.video with master_playlist_s3_key := masterKey st.video.id } }
    (uploadVariantsLoop w (sortByWidth st1.variants), st1)
  else (false, st)

/-- Truthiness of `not self.video.file_size`: `None` and `0` are falsy. -/
def pyFalsyNat : Option Nat → Bool
  | none => true
  | some n => n = 0

/-- Probe bookkeeping (`process_to_hls` lines 56-61): on a successful
probe persist the duration and, when no byte size is known, the probed
file size; a failed probe is advisory and changes nothing. -/
def applyProbe (p : Option ProbeInfo) (st : HLSState) : HLSState :=
  match p with
  | none => st
  | some i =>
    { st with video :=
      { st.video with
        duration := some i.duration
        file_size := if pyFalsyNat st.video.file_size then some i.fileSize else st.video.file_size } }

/-- Opening bookkeeping of `process_to_hls` (lines 40-42): mark the job
processing and record the start time. -/
def hlsStart (st : HLSState) : HLSState :=
  { st with
    video := { st.video with processing_status := "processing", processing_started_at := some st.clock }
    clock := st.clock + 1 }

/-- Scratch-workspace creation of `process_to_hls` (line 45):
`tempfile.mkdtemp(prefix='hls_processing_')`. -/
def hlsWorkspace (st : HLSState) : HLSState :=
  { st with live := ScratchDir.hlsMain :: st.live }

/-- Stages of `process_to_hls` after a successful stage-in (lines 56-86):
probe, plan and encode the variants, synthesize the master playlist,
stage out, and on full success mark the job completed.  The second
component is the message of the exception that aborted the run, `none`
on success. -/
def hlsMainStages (w : HLSWorld) (cat : Catalog) (st2 : HLSState) : HLSState × Option String :=
  let st3 := applyProbe w.probe st2
  let st4 := planVariants cat st3
  if runVariantsLoop w cat then
    match updateVariantsInfo st4.video.id w (cat.map Prod.fst) st4 with
    | none => (st4, some "FFmpeg processing failed")
    | some st5 =>
      match createMasterPlaylistLines cat with
      | Except.error e => (st5, some e)
      | Except.ok _ =>
        let up := uploadHLSToS3 w st5
        if up.1 then
          ({ up.2 with
             video := { up.2.video with processing_status := "completed", processed_at := some up.2.clock }
             clock := up.2.clock + 1 }, none)
        else (up.2, some "Failed to upload HLS files to S3")
  else (st4, some "FFmpeg processing failed")

/-- Try-block of `process_to_hls` (lines 38-86): mark the job processing,
create the scratch workspace, stage in, then run the main stages. -/
def hlsTryBody (w : HLSWorld) (cat : Catalog) (st : HLSState) : HLSState × Option String :=
  let st2 := hlsWorkspace (hlsStart st)
  if ¬ w.downloadOk then (st2, some "Failed to download video from S3")
  else hlsMainStages w cat st2

/-- Full `process_to_hls` run: the try-block, then the `except` handler
(mark the job failed and record `str(e)` on any exception) and the
`finally` clause (always delete the scratch workspace).  Returns the
method's boolean result and the final state. -/
def processToHLS (w : HLSWorld) (cat : Catalog) (st : HLSState) : Bool × HLSState :=
  let r := hlsTryBody w cat st
  let stE : HLSState :=
    match r.2 with
    | none => r.1
    | some m => { r.1 with video := { r.1.video with processing_status := "failed", error_message := m } }
  (r.2.isNone, { stE with live := stE.live.filter (fun d => d ≠ ScratchDir.hlsMain) })

/-- Fresh `HLSVideo` row and empty variant table, as for a job processed
for the first time. -/
def initHLSState (vid : Nat) : HLSState :=
  { video :=
    { id := vid
      processing_status := "pending"
      processing_started_at := none
      processed_at := none
      error_message := ""
      master_playlist_s3_key := ""
      duration := none
      file_size := none }
    variants := []
    live := []
    clock := 0 }

/-! ### Independent-rendition mode: Django rows, state, world -/

/-- Row of `videos.models.Video`, restricted to the fields the pipeline
reads or writes.  Faithfully to `videos/models.py`, the model has **no
error-detail column** (and no processing-start timestamp). -/
structure VideoRec where
  id : Nat
  processing_status : String
  processed_at : Option Nat
  duration : Option Nat
  file_size : Option Nat
  deriving Repr, DecidableEq

/-- Error detail a `Video` row carries: the model declares no such
column, so every row carries none. -/
def videoErrorDetail (_ : VideoRec) : Option String := none

/-- Row of `videos.models.VideoResolution` for one video. -/
structure VideoResolutionRec where
  resolution : String
  width : Nat
  height : Nat
  bitrate : String
  file_path : Option String
  s3_key : Option String
  file_size : Option Nat
  processing_started_at : Option Nat
  processing_completed_at : Option Nat
  processing_failed_at : Option Nat
  error_message : Option String
  deriving Repr, DecidableEq

/-- Mutable state of one independent-rendition run. -/
structure VState where
  video : VideoRec
  table : List VideoResolutionRec
  live : List ScratchDir
  clock : Nat
  deriving Repr, DecidableEq

/-- Outcomes of the external effects an independent-rendition run
performs.  `useS3` is `settings.USE_S3_STORAGE`; `inputIsS3` is
`video.is_s3_stored` (which decides whether `__init__` creates the main
scratch workspace; the stage-in download's return value is ignored by
the code, so it does not appear here); `srcBase` is the input filename
without extension; `outSize` gives the byte size of each encode's
output. -/
structure VWorld where
  useS3 : Bool
  inputIsS3 : Bool
  srcBase : String
  probe : Option ProbeInfo
  enc : String → EncBehavior
  outSize : String → Nat
  uploadOk : String → Bool

/-- Output filename `f"{base_name}_{resolution_key}.mp4"`. -/
def vresOutputName (base k : String) : String :=
  base ++ "_" ++ k ++ ".mp4"

/-- Processed-rendition object key
`f"videos/processed/{video.id}/{resolution_key}/{output_filename}"`. -/
def vresS3Key (vid : Nat) (base k : String) : String :=
  "videos/processed/" ++ toString vid ++ "/" ++ k ++ "/" ++ vresOutputName base k

/-- Media-relative local path of a processed rendition
(`os.path.relpath(output_path, settings.MEDIA_ROOT)`). -/
def vresLocalPath (vid : Nat) (base k : String) : String :=
  "processed/" ++ toString vid ++ "/" ++ k ++ "/" ++ vresOutputName base k

/-- Lookup of the rendition row with a given resolution label. -/
def findVRes (k : String) (t : List VideoResolutionRec) : Option VideoResolutionRec :=
  t.find? (fun r => r.resolution = k)

/-- Update of the rendition row with a given resolution label. -/
def setVRes (k : String) (f : VideoResolutionRec → VideoResolutionRec)
    (t : List VideoResolutionRec) : List VideoResolutionRec :=
  t.map (fun r => if r.resolution = k then f r else r)

/-- Defaults of `VideoResolution.objects.get_or_create`
(`videos/utils.py` lines 99-108). -/
def newVRes (k : String) (cfg : PresetConfig) (clock : Nat) : VideoResolutionRec :=
  { resolution := k
    width := cfg.width
    height := cfg.height
    bitrate := cfg.bitrate
    file_path := none
    s3_key := none
    file_size := none
    processing_started_at := some clock
    processing_completed_at := none
    processing_failed_at := none
    error_message := none }

/-- Reprocessing reset applied when the row already existed (lines
110-115): restart the started timestamp and clear completion, failure
and error markers. -/
def resetVRes (clock : Nat) (r : VideoResolutionRec) : VideoResolutionRec :=
  { r with
    processing_started_at := some clock
    processing_completed_at := none
    processing_failed_at := none
    error_message := none }

/-- Planner step of `_process_single_resolution`: `get_or_create` the
rendition row, resetting its markers when it pre-existed. -/
def planVRes (k : String) (cfg : PresetConfig) (st : VState) : VState :=
  match findVRes k st.table with
  | none => { st with table := st.table ++ [newVRes k cfg st.clock], clock := st.clock + 1 }
  | some _ => { st with table := setVRes k (resetVRes st.clock) st.table, clock := st.clock + 1 }

/-- Failure bookkeeping of `_process_single_resolution`'s handler (lines
191-200): set the failed timestamp and the error text on the rendition
row. -/
def markVResFailed (k msg : String) (st : VState) : VState :=
  { st with
    table := setVRes k (fun r =>
      { r with processing_failed_at := some st.clock, error_message := some msg }) st.table
    clock := st.clock + 1 }

/-- Creation of the per-resolution scratch output directory
(`tempfile.mkdtemp()` at line 125), done only when persisting to S3. -/
def vOutDir (w : VWorld) (k : String) (st : VState) : VState :=
  if w.useS3 then { st with live := ScratchDir.videosOut k :: st.live } else st

/-- Success bookkeeping on the S3 path (lines 163-175): record the object
key, the output size and the completion timestamp, then delete the
per-resolution scratch output directory. -/
def vMarkUploaded (w : VWorld) (k : String) (st : VState) : VState :=
  let st3 : VState :=
    { st with
      table := setVRes k (fun r =>
        { r with
          s3_key := some (vresS3Key st.video.id w.srcBase k)
          file_size := some (w.outSize k)
          processing_completed_at := some st.clock }) st.table
      clock := st.clock + 1 }
  { st3 with live := st3.live.filter (fun d => d ≠ ScratchDir.videosOut k) }

/-- Success bookkeeping on the local path (lines 178-187): record the
media-relative path, the output size and the completion timestamp. -/
def vMarkLocal (w : VWorld) (k : String) (st : VState) : VState :=
  { st with
    table := setVRes k (fun r =>
      { r with
        file_path := some (vresLocalPath st.video.id w.srcBase k)
        file_size := some (w.outSize k)
        processing_completed_at := some st.clock }) st.table
    clock := st.clock + 1 }

/-- One `_process_single_resolution` call: plan the row, create the
per-resolution scratch output directory when uploading to S3, run ffmpeg
with **no timeout**, then either persist the output (S3 key or local
path) and mark completion, or mark failure with the raised message.  On
the S3 path the scratch output directory is removed only on full
success. -/
def processSingleResolution (w : VWorld) (k : String) (cfg : PresetConfig) (st : VState) :
    Bool × VState :=
  let st2 := vOutDir w k (planVRes k cfg st)
  match videosFfmpegRun (w.enc k) with
  | RunOutcome.timedOut => (false, markVResFailed k "Command timed out" st2)
  | RunOutcome.finished ec serr =>
    if ec = 0 then
      if w.useS3 then
        if w.uploadOk (vresS3Key st2.video.id w.srcBase k) then (true, vMarkUploaded w k st2)
        else (false, markVResFailed k "Failed to upload to S3" st2)
      else (true, vMarkLocal w k st2)
    else (false, markVResFailed k ("FFmpeg failed: " ++ serr) st2)

/-- Per-preset loop of `process_resolutions` (lines 71-77), counting the
successful renditions (the loop's own handler swallows any exception,
leaving the count unchanged; `_process_single_resolution` already
catches everything internally). -/
def processResolutionsLoop (w : VWorld) : Catalog → VState → Nat × VState
  | [], st => (0, st)
  | (k, cfg) :: rest, st =>
    let r := processSingleResolution w k cfg st
    let rr := processResolutionsLoop w rest r.2
    ((if r.1 then 1 else 0) + rr.1, rr.2)

/-- Probe bookkeeping of `process_resolutions` (lines 62-67), identical
in effect to the HLS pipeline's. -/
def applyProbeV (p : Option ProbeInfo) (st : VState) : VState :=
  match p with
  | none => st
  | some i =>
    { st with video :=
      { st.video with
        duration := some i.duration
        file_size := if pyFalsyNat st.video.file_size then some i.fileSize else st.video.file_size } }

/-- Full `process_resolutions` run: mark the job processing, probe,
process every preset, derive the job status from the success count
(`completed` iff at least one rendition succeeded, else `failed` — with
no error detail recorded, the model having no such column), and remove
the main scratch workspace.  Returns `processed_count > 0` and the final
state. -/
def processResolutions (w : VWorld) (cat : Catalog) (st : VState) : Bool × VState :=
  let st1 : VState :=
    { st with video := { st.video with processing_status := "processing" } }
  let st2 := applyProbeV w.probe st1
  let r := processResolutionsLoop w cat st2
  let st3 : VState :=
    if 0 < r.1 then
      { r.2 with
        video := { r.2.video with processing_status := "completed", processed_at := some r.2.clock }
        clock := r.2.clock + 1 }
    else { r.2 with video := { r.2.video with processing_status := "failed" } }
  (0 < r.1, { st3 with live := st3.live.filter (fun d => d ≠ ScratchDir.videosMain) })

/-- Fresh `Video` row and empty rendition table; `VideoProcessor.__init__`
creates the main scratch workspace exactly when the source lives in S3. -/
def initVState (w : VWorld) (vid : Nat) : VState :=
  { video :=
    { id := vid
      processing_status := "pending"
      processed_at := none
      duration := none
      file_size := none }
    table := []
    live := if w.inputIsS3 then [ScratchDir.videosMain] else []
    clock := 0 }

/-! ### Character and parsing lemmas -/

theorem digit_ne_of {c d : Char} (h : c.isDigit = true) (hd : d.isDigit = false) : c ≠ d := by
  intro he
  rw [he, hd] at h
  exact Bool.false_ne_true h

theorem ws_cases {c : Char} (h : pyWs c = true) : c = ' ' ∨ c = '\t' ∨ c = '\r' ∨ c = '\n' := by
  simpa [pyWs, Char.isWhitespace, or_assoc] using h

theorem digit_not_ws {c : Char} (h : c.isDigit = true) : pyWs c = false := by
  cases hw : pyWs c
  · rfl
  · rcases ws_cases hw with h' | h' | h' | h' <;> (subst h'; exact absurd h (by decide))

theorem dropWhile_eq_self_of {α : Type} (p : α → Bool) (l : List α)
    (h : ∀ c ∈ l, p c = false) : l.dropWhile p = l := by
  cases l with
  | nil => rfl
  | cons a l => simp [List.dropWhile_cons, h a (by simp)]

theorem pyStripChars_digits (l : List Char) (h : ∀ c ∈ l, c.isDigit = true) :
    pyStripChars l = l := by
  unfold pyStripChars
  rw [dropWhile_eq_self_of pyWs l (fun c hc => digit_not_ws (h c hc)),
    dropWhile_eq_self_of pyWs l.reverse (fun c hc => digit_not_ws (h c (List.mem_reverse.mp hc))),
    List.reverse_reverse]

theorem filter_digits_id (d : Char) (hd : d.isDigit = false) (l : List Char)
    (h : ∀ c ∈ l, c.isDigit = true) : l.filter (fun c => c ≠ d) = l := by
  rw [List.filter_eq_self]
  intro a ha
  simpa using digit_ne_of (h a ha) hd

theorem digitRunValid_digits : ∀ (l : List Char), l ≠ [] → (∀ c ∈ l, c.isDigit = true) →
    digitRunValid l = true
  | [], hne, _ => absurd rfl hne
  | [c], _, h => by simpa [digitRunValid] using h c (by simp)
  | c :: d :: rest, _, h => by
    have hd : d.isDigit = true := h d (by simp)
    have hne : d ≠ '_' := digit_ne_of hd (by decide)
    have ih := digitRunValid_digits (d :: rest) (by simp)
      (fun x hx => h x (List.mem_cons_of_mem c hx))
    simp [digitRunValid, hne, h c (by simp), ih]

theorem pyIntOfChars_digits (l : List Char) (hne : l ≠ []) (h : ∀ c ∈ l, c.isDigit = true) :
    pyIntOfChars l = some (Int.ofNat (decValue l)) := by
  match l, hne with
  | c :: rest, _ =>
    have hc : c.isDigit = true := h c (by simp)
    have h1 : c ≠ '+' := digit_ne_of hc (by decide)
    have h2 : c ≠ '-' := digit_ne_of hc (by decide)
    have h3 := digitRunValid_digits (c :: rest) (by simp) h
    have h4 := filter_digits_id '_' (by decide) (c :: rest) h
    simp only [pyIntOfChars, if_neg h1, if_neg h2, if_pos h3]
    rw [h4]

theorem pyInt_digits (s : String) (hne : s.data ≠ []) (h : ∀ c ∈ s.data, c.isDigit = true) :
    pyInt s = some (Int.ofNat (decValue s.data)) := by
  unfold pyInt
  rw [pyStripChars_digits s.data h]
  exact pyIntOfChars_digits s.data hne h

theorem bandwidthOf_digits (ds : String) (hne : ds.data ≠ [])
    (h : ∀ c ∈ ds.data, c.isDigit = true) :
    bandwidthOf (ds ++ "k") = some (Int.ofNat (decValue ds.data) * 1000) := by
  have hdat : (pyRemoveK (ds ++ "k")).data = ds.data := by
    unfold pyRemoveK
    rw [String.data_append]
    show (ds.data ++ "k".data).filter (fun c => c ≠ 'k') = ds.data
    rw [List.filter_append, filter_digits_id 'k' (by decide) ds.data h]
    simp
  unfold bandwidthOf
  have : pyInt (pyRemoveK (ds ++ "k")) = some (Int.ofNat (decValue ds.data)) := by
    unfold pyInt
    rw [hdat, pyStripChars_digits ds.data h]
    exact pyIntOfChars_digits ds.data hne h
  rw [this]
  rfl

theorem intParseErrMsg_ne_empty (s : String) : intParseErrMsg s ≠ "" := by
  unfold intParseErrMsg
  intro h
  have h2 : ("invalid literal for int() with base 10: ").data ++ s.data = ([] : List Char) := by
    simpa [String.data_append] using congrArg String.data h
  rcases List.append_eq_nil.mp h2 with ⟨h3, _⟩
  exact absurd h3 (by decide)

/-! ### Master playlist lemmas -/

theorem streamEntries_ok_of_parses (cat : Catalog)
    (h : ∀ kc ∈ cat, (bandwidthOf kc.2.bitrate).isSome = true) :
    ∃ es, streamEntries cat = Except.ok es ∧ es.map StreamEntry.resKey = cat.map Prod.fst := by
  induction cat with
  | nil => exact ⟨[], rfl, rfl⟩
  | cons kc rest ih =>
    obtain ⟨bw, hbw⟩ := Option.isSome_iff_exists.mp (h kc (by simp))
    obtain ⟨es, hes, hkeys⟩ := ih (fun x hx => h x (List.mem_cons_of_mem kc hx))
    exact ⟨mkStreamEntry kc.1 kc.2 bw :: es, by simp [streamEntries, hbw, hes],
      by simp [mkStreamEntry, hkeys]⟩

theorem streamEntries_err_of_bad (cat : Catalog)
    (h : ∃ kc ∈ cat, bandwidthOf kc.2.bitrate = none) :
    ∃ e, streamEntries cat = Except.error e := by
  induction cat with
  | nil => simp at h
  | cons kc rest ih =>
    cases hbw : bandwidthOf kc.2.bitrate with
    | none => exact ⟨intParseErrMsg (pyRemoveK kc.2.bitrate), by simp [streamEntries, hbw]⟩
    | some bw =>
      have hrest : ∃ x ∈ rest, bandwidthOf x.2.bitrate = none := by
        rcases h with ⟨x, hx, hbad⟩
        rcases List.mem_cons.mp hx with he | hm
        · rw [he] at hbad; rw [hbad] at hbw; exact absurd hbw (by simp)
        · exact ⟨x, hm, hbad⟩
      obtain ⟨e, he⟩ := ih hrest
      exact ⟨e, by simp [streamEntries, hbw, he]⟩

theorem streamEntries_err_shape (cat : Catalog) (e : String)
    (h : streamEntries cat = Except.error e) : ∃ s, e = intParseErrMsg s := by
  induction cat with
  | nil => simp [streamEntries] at h
  | cons kc rest ih =>
    cases hbw : bandwidthOf kc.2.bitrate with
    | none =>
      simp only [streamEntries, hbw, Except.error.injEq] at h
      exact ⟨pyRemoveK kc.2.bitrate, h.symm⟩
    | some bw =>
      cases hes : streamEntries rest with
      | error e' =>
        simp only [streamEntries, hbw, hes, Except.error.injEq] at h
        rw [h] at hes
        exact ih hes
      | ok es => simp [streamEntries, hbw, hes] at h

theorem createMasterPlaylistLines_err_of_bad (cat : Catalog)
    (h : ∃ kc ∈ cat, bandwidthOf kc.2.bitrate = none) :
    ∃ s, createMasterPlaylistLines cat = Except.error (intParseErrMsg s) := by
  obtain ⟨e, he⟩ := streamEntries_err_of_bad cat h
  obtain ⟨s, hs⟩ := streamEntries_err_shape cat e he
  exact ⟨s, by rw [createMasterPlaylistLines, he, hs]⟩

theorem createMasterPlaylistLines_ok_of_parses (cat : Catalog)
    (h : ∀ kc ∈ cat, (bandwidthOf kc.2.bitrate).isSome = true) :
    ∃ ls, createMasterPlaylistLines cat = Except.ok ls := by
  obtain ⟨es, hes, _⟩ := streamEntries_ok_of_parses cat h
  exact ⟨_, by rw [createMasterPlaylistLines, hes]⟩

/-! ### HLS pipeline structural lemmas -/

theorem applyProbe_video_id (p : Option ProbeInfo) (st : HLSState) :
    (applyProbe p st).video.id = st.video.id := by
  cases p <;> rfl

theorem applyProbe_status (p : Option ProbeInfo) (st : HLSState) :
    (applyProbe p st).video.processing_status = st.video.processing_status := by
  cases p <;> rfl

theorem applyProbe_master (p : Option ProbeInfo) (st : HLSState) :
    (applyProbe p st).video.master_playlist_s3_key = st.video.master_playlist_s3_key := by
  cases p <;> rfl

theorem applyProbe_variants (p : Option ProbeInfo) (st : HLSState) :
    (applyProbe p st).variants = st.variants := by
  cases p <;> rfl

theorem applyProbe_live (p : Option ProbeInfo) (st : HLSState) :
    (applyProbe p st).live = st.live := by
  cases p <;> rfl

theorem getOrCreateVariant_video (k : String) (cfg : PresetConfig) (st : HLSState) :
    (getOrCreateVariant k cfg st).video = st.video := by
  unfold getOrCreateVariant
  cases findVariant k st.variants <;> rfl

theorem getOrCreateVariant_live (k : String) (cfg : PresetConfig) (st : HLSState) :
    (getOrCreateVariant k cfg st).live = st.live := by
  unfold getOrCreateVariant
  cases findVariant k st.variants <;> rfl

theorem planVariants_video (cat : Catalog) (st : HLSState) :
    (planVariants cat st).video = st.video := by
  induction cat generalizing st with
  | nil => rfl
  | cons kc rest ih =>
    show (planVariants rest (getOrCreateVariant kc.1 kc.2 st)).video = st.video
    rw [ih, getOrCreateVariant_video]

theorem planVariants_live (cat : Catalog) (st : HLSState) :
    (planVariants cat st).live = st.live := by
  induction cat generalizing st with
  | nil => rfl
  | cons kc rest ih =>
    show (planVariants rest (getOrCreateVariant kc.1 kc.2 st)).live = st.live
    rw [ih, getOrCreateVariant_live]

theorem hasVariant_getOrCreate_self (k : String) (cfg : PresetConfig) (st : HLSState) :
    (findVariant k (getOrCreateVariant k cfg st).variants).isSome = true := by
  unfold getOrCreateVariant
  cases hf : findVariant k st.variants with
  | some r => simp [hf]
  | none =>
    show (findVariant k (st.variants ++ [newVariant k cfg st.clock])).isSome = true
    unfold findVariant at *
    rw [List.find?_append, hf]
    simp [newVariant, List.find?]

theorem hasVariant_getOrCreate_mono (j k : String) (cfg : PresetConfig) (st : HLSState)
    (h : (findVariant j st.variants).isSome = true) :
    (findVariant j (getOrCreateVariant k cfg st).variants).isSome = true := by
  unfold getOrCreateVariant
  cases hf : findVariant k st.variants with
  | some r => simpa using h
  | none =>
    show (findVariant j (st.variants ++ [newVariant k cfg st.clock])).isSome = true
    unfold findVariant at *
    rw [List.find?_append]
    obtain ⟨r, hr⟩ := Option.isSome_iff_exists.mp h
    simp [hr]

theorem hasVariant_plan (cat : Catalog) (st : HLSState) (j : String)
    (h : (findVariant j st.variants).isSome = true ∨ j ∈ cat.map Prod.fst) :
    (findVariant j (planVariants cat st).variants).isSome = true := by
  induction cat generalizing st with
  | nil =>
    rcases h with h | h
    · exact h
    · simp at h
  | cons kc rest ih =>
    show (findVariant j (planVariants rest (getOrCreateVariant kc.1 kc.2 st)).variants).isSome = true
    rcases h with h | h
    · exact ih _ (Or.inl (hasVariant_getOrCreate_mono j kc.1 kc.2 st h))
    · have h' : j ∈ kc.1 :: rest.map Prod.fst := by simpa using h
      rcases List.mem_cons.mp h' with he | hm
      · exact ih _ (Or.inl (he ▸ hasVariant_getOrCreate_self kc.1 kc.2 st))
      · exact ih _ (Or.inr hm)

theorem findVariant_setVariant_isSome (k j : String) (f : HLSVariantRec → HLSVariantRec)
    (t : List HLSVariantRec) (hf : ∀ r, (f r).resolution = r.resolution) :
    (findVariant k (setVariant j f t)).isSome = (findVariant k t).isSome := by
  induction t with
  | nil => rfl
  | cons r rest ih =>
    have hres : (if r.resolution = j then f r else r).resolution = r.resolution := by
      split
      · exact hf r
      · rfl
    show (List.find? (fun x => decide (x.resolution = k))
        ((if r.resolution = j then f r else r) :: setVariant j f rest)).isSome
      = (List.find? (fun x => decide (x.resolution = k)) (r :: rest)).isSome
    rw [List.find?_cons, List.find?_cons, hres]
    cases hd : decide (r.resolution = k) with
    | true => rfl
    | false => exact ih

theorem updateVariantsInfo_ok (vid : Nat) (w : HLSWorld) (ks : List String) (st : HLSState)
    (h : ∀ k ∈ ks, (findVariant k st.variants).isSome = true) :
    ∃ st', updateVariantsInfo vid w ks st = some st' ∧
      st'.video = st.video ∧ st'.live = st.live := by
  induction ks generalizing st with
  | nil => exact ⟨st, rfl, rfl, rfl⟩
  | cons k ks ih =>
    obtain ⟨r, hr⟩ := Option.isSome_iff_exists.mp (h k (by simp))
    have hpres : ∀ j ∈ ks,
        (findVariant j
          (({ st with
              variants := setVariant k (fun r =>
                { r with
                  segment_count := w.segs k
                  playlist_s3_key := variantPlaylistKey vid k
                  segments_s3_key_base := variantSegBase vid k
                  processing_completed_at := some st.clock }) st.variants
              clock := st.clock + 1 } : HLSState)).variants).isSome = true := by
      intro j hj
      have hEq := findVariant_setVariant_isSome j k (fun r =>
        { r with
          segment_count := w.segs k
          playlist_s3_key := variantPlaylistKey vid k
          segments_s3_key_base := variantSegBase vid k
          processing_completed_at := some st.clock }) st.variants (fun r => rfl)
      show (findVariant j (setVariant k _ st.variants)).isSome = true
      rw [hEq]
      exact h j (List.mem_cons_of_mem k hj)
    obtain ⟨st', hst', hv, hl⟩ := ih _ hpres
    refine ⟨st', ?_, by rw [hv], by rw [hl]⟩
    simpa [updateVariantsInfo, hr] using hst'

theorem runVariantsLoop_cons (w : HLSWorld) (kc : String × PresetConfig) (rest : Catalog) :
    runVariantsLoop w (kc :: rest) =
      if 3600 < (w.enc kc.1).runtime then false
      else if (w.enc kc.1).exitCode ≠ 0 then false
      else runVariantsLoop w rest := by
  by_cases ht : 3600 < (w.enc kc.1).runtime
  · simp [runVariantsLoop, hlsFfmpegRun, subprocessRun, ht]
  · by_cases he : (w.enc kc.1).exitCode = 0 <;>
      simp [runVariantsLoop, hlsFfmpegRun, subprocessRun, ht, he]

theorem runVariantsLoop_true_iff (w : HLSWorld) (cat : Catalog) :
    runVariantsLoop w cat = true ↔
      ∀ kc ∈ cat, (w.enc kc.1).runtime ≤ 3600 ∧ (w.enc kc.1).exitCode = 0 := by
  induction cat with
  | nil => simp [runVariantsLoop]
  | cons kc rest ih =>
    rw [runVariantsLoop_cons]
    by_cases ht : 3600 < (w.enc kc.1).runtime
    · rw [if_pos ht]
      constructor
      · intro h; exact absurd h (by simp)
      · intro hall
        obtain ⟨h1, _⟩ := hall kc (by simp)
        omega
    · rw [if_neg ht]
      by_cases he : (w.enc kc.1).exitCode = 0
      · rw [if_neg (by simpa using he)]
        constructor
        · intro h x hx
          rcases List.mem_cons.mp hx with hx1 | hx2
          · subst hx1; exact ⟨by omega, he⟩
          · exact (ih.mp h) x hx2
        · intro hall
          exact ih.mpr (fun x hx => hall x (List.mem_cons_of_mem kc hx))
      · rw [if_pos (by simpa using he)]
        constructor
        · intro h; exact absurd h (by simp)
        · intro hall
          obtain ⟨_, h2⟩ := hall kc (by simp)
          exact (he h2).elim

theorem createMasterPlaylistLines_err_shape (cat : Catalog) (e : String)
    (h : createMasterPlaylistLines cat = Except.error e) : ∃ s, e = intParseErrMsg s := by
  unfold createMasterPlaylistLines at h
  cases hes : streamEntries cat with
  | error e' =>
    rw [hes] at h
    simp only [Except.error.injEq] at h
    rw [h] at hes
    exact streamEntries_err_shape cat e hes
  | ok es => rw [hes] at h; simp at h

/-- Every abort of the HLS main stages carries a non-empty exception
message; a clean return marks the job completed. -/
theorem hlsMainStages_cases (w : HLSWorld) (cat : Catalog) (st2 : HLSState) :
    (∃ m, (hlsMainStages w cat st2).2 = some m ∧ m ≠ "") ∨
    ((hlsMainStages w cat st2).2 = none ∧
      (hlsMainStages w cat st2).1.video.processing_status = "completed") := by
  simp only [hlsMainStages]
  split
  · split
    · exact Or.inl ⟨_, rfl, by decide⟩
    · split
      · rename_i e heq
        obtain ⟨s, hs⟩ := createMasterPlaylistLines_err_shape _ _ heq
        exact Or.inl ⟨e, rfl, hs ▸ intParseErrMsg_ne_empty s⟩
      · split
        · exact Or.inr ⟨rfl, rfl⟩
        · exact Or.inl ⟨_, rfl, by decide⟩
  · exact Or.inl ⟨_, rfl, by decide⟩

/-- Every abort of the HLS try-block carries a non-empty exception
message; a clean return marks the job completed. -/
theorem hlsTryBody_cases (w : HLSWorld) (cat : Catalog) (st : HLSState) :
    (∃ m, (hlsTryBody w cat st).2 = some m ∧ m ≠ "") ∨
    ((hlsTryBody w cat st).2 = none ∧
      (hlsTryBody w cat st).1.video.processing_status = "completed") := by
  simp only [hlsTryBody]
  split
  · exact Or.inl ⟨_, rfl, by decide⟩
  · exact hlsMainStages_cases w cat _

theorem processToHLS_of_err (w : HLSWorld) (cat : Catalog) (st : HLSState) (m : String)
    (h : (hlsTryBody w cat st).2 = some m) :
    (processToHLS w cat st).2.video.processing_status = "failed" ∧
    (processToHLS w cat st).2.video.error_message = m := by
  unfold processToHLS
  simp [h]

theorem processToHLS_of_ok (w : HLSWorld) (cat : Catalog) (st : HLSState)
    (h : (hlsTryBody w cat st).2 = none) :
    (processToHLS w cat st).2.video.processing_status
      = (hlsTryBody w cat st).1.video.processing_status := by
  unfold processToHLS
  simp only [h]

theorem processToHLS_master (w : HLSWorld) (cat : Catalog) (st : HLSState) :
    (processToHLS w cat st).2.video.master_playlist_s3_key
      = (hlsTryBody w cat st).1.video.master_playlist_s3_key := by
  unfold processToHLS
  rcases hx : (hlsTryBody w cat st).2 with _ | m <;> simp [hx]

theorem hlsTryBody_eq_main (w : HLSWorld) (cat : Catalog) (st : HLSState)
    (hdl : w.downloadOk = true) :
    hlsTryBody w cat st = hlsMainStages w cat (hlsWorkspace (hlsStart st)) := by
  unfold hlsTryBody
  rw [if_neg (by simp [hdl])]

theorem uploadHLSToS3_master_ok (w : HLSWorld) (st : HLSState)
    (h : w.uploadOk (masterKey st.video.id) = true) :
    (uploadHLSToS3 w st).2.video.master_playlist_s3_key = masterKey st.video.id := by
  unfold uploadHLSToS3
  rw [if_pos h]

/-- When stage-in, every encode and every bandwidth parse succeed and the
master upload itself succeeds, the master key is persisted on the video
row — regardless of whether the later variant transfers succeed. -/
theorem hlsMainStages_master (w : HLSWorld) (cat : Catalog) (st2 : HLSState)
    (henc : ∀ kc ∈ cat, (w.enc kc.1).runtime ≤ 3600 ∧ (w.enc kc.1).exitCode = 0)
    (hbw : ∀ kc ∈ cat, (bandwidthOf kc.2.bitrate).isSome = true)
    (hup : w.uploadOk (masterKey st2.video.id) = true) :
    (hlsMainStages w cat st2).1.video.master_playlist_s3_key = masterKey st2.video.id := by
  have hloop : runVariantsLoop w cat = true := (runVariantsLoop_true_iff w cat).mpr henc
  obtain ⟨st5, h5, hv5, hl5⟩ := updateVariantsInfo_ok
    (planVariants cat (applyProbe w.probe st2)).video.id w (cat.map Prod.fst)
    (planVariants cat (applyProbe w.probe st2))
    (fun k hk => hasVariant_plan cat (applyProbe w.probe st2) k (Or.inr hk))
  obtain ⟨ls, hls⟩ := createMasterPlaylistLines_ok_of_parses cat hbw
  have hid : st5.video.id = st2.video.id := by
    rw [hv5, planVariants_video, applyProbe_video_id]
  have hupk : w.uploadOk (masterKey st5.video.id) = true := by rw [hid]; exact hup
  simp only [hlsMainStages, if_pos hloop, h5, hls]
  split
  · show (uploadHLSToS3 w st5).2.video.master_playlist_s3_key = masterKey st2.video.id
    rw [uploadHLSToS3_master_ok w st5 hupk, hid]
  · show (uploadHLSToS3 w st5).2.video.master_playlist_s3_key = masterKey st2.video.id
    rw [uploadHLSToS3_master_ok w st5 hupk, hid]

/-- When every encode succeeds but some bitrate fails to parse, the main
stages abort with the `ValueError` message of the bandwidth parse. -/
theorem hlsMainStages_err_of_badbw (w : HLSWorld) (cat : Catalog) (st2 : HLSState)
    (henc : ∀ kc ∈ cat, (w.enc kc.1).runtime ≤ 3600 ∧ (w.enc kc.1).exitCode = 0)
    (hbad : ∃ kc ∈ cat, bandwidthOf kc.2.bitrate = none) :
    ∃ s, (hlsMainStages w cat st2).2 = some (intParseErrMsg s) := by
  have hloop : runVariantsLoop w cat = true := (runVariantsLoop_true_iff w cat).mpr henc
  obtain ⟨st5, h5, _, _⟩ := updateVariantsInfo_ok
    (planVariants cat (applyProbe w.probe st2)).video.id w (cat.map Prod.fst)
    (planVariants cat (applyProbe w.probe st2))
    (fun k hk => hasVariant_plan cat (applyProbe w.probe st2) k (Or.inr hk))
  obtain ⟨s, hcm⟩ := createMasterPlaylistLines_err_of_bad cat hbad
  exact ⟨s, by simp only [hlsMainStages, if_pos hloop, h5, hcm]⟩

/-! ### Independent-rendition pipeline lemmas -/

/-- Success condition of one `_process_single_resolution` call, as a
function of the world: the encode exits 0 and, when persisting to S3,
the upload succeeds. -/
def vStepOk (w : VWorld) (vid : Nat) (k : String) : Bool :=
  if (w.enc k).exitCode = 0 then
    (if w.useS3 then w.uploadOk (vresS3Key vid w.srcBase k) else true)
  else false

theorem findVRes_absent_all (k : String) (t : List VideoResolutionRec)
    (h : findVRes k t = none) : ∀ r ∈ t, r.resolution ≠ k := by
  intro r hr
  have := List.find?_eq_none.mp h r hr
  simpa using this

theorem setVRes_absent (k : String) (f : VideoResolutionRec → VideoResolutionRec)
    (t : List VideoResolutionRec) (h : ∀ r ∈ t, r.resolution ≠ k) : setVRes k f t = t := by
  induction t with
  | nil => rfl
  | cons r rest ih =>
    show (if r.resolution = k then f r else r) :: setVRes k f rest = r :: rest
    rw [if_neg (h r (by simp)), ih (fun x hx => h x (List.mem_cons_of_mem r hx))]

theorem setVRes_append_single (k : String) (f : VideoResolutionRec → VideoResolutionRec)
    (t : List VideoResolutionRec) (x : VideoResolutionRec)
    (h : ∀ r ∈ t, r.resolution ≠ k) (hx : x.resolution = k) :
    setVRes k f (t ++ [x]) = t ++ [f x] := by
  show (t ++ [x]).map _ = t ++ [f x]
  rw [List.map_append]
  congr 1
  · exact setVRes_absent k f t h
  · show [if x.resolution = k then f x else x] = [f x]
    rw [if_pos hx]

theorem findVRes_append_self (k : String) (t : List VideoResolutionRec)
    (x : VideoResolutionRec) (h : findVRes k t = none) (hx : x.resolution = k) :
    findVRes k (t ++ [x]) = some x := by
  unfold findVRes at *
  rw [List.find?_append, h, Option.none_or]
  simp [List.find?, hx]

theorem findVRes_append_other (j k : String) (t : List VideoResolutionRec)
    (x : VideoResolutionRec) (hj : j ≠ k) (hx : x.resolution = k) :
    findVRes j (t ++ [x]) = findVRes j t := by
  unfold findVRes
  rw [List.find?_append]
  have hone : List.find? (fun r => decide (r.resolution = j)) [x] = none := by
    have : x.resolution ≠ j := by rw [hx]; exact Ne.symm hj
    simp [List.find?, this]
  rw [hone, Option.or_none]

theorem append_ne_empty_left (a b : String) (ha : a.data ≠ []) : a ++ b ≠ "" := by
  intro h
  have h2 : a.data ++ b.data = [] := by simpa [String.data_append] using congrArg String.data h
  exact ha (List.append_eq_nil.mp h2).1

theorem planVRes_absent (k : String) (cfg : PresetConfig) (st : VState)
    (h : findVRes k st.table = none) :
    planVRes k cfg st =
      { st with table := st.table ++ [newVRes k cfg st.clock], clock := st.clock + 1 } := by
  unfold planVRes
  rw [h]

theorem vOutDir_table (w : VWorld) (k : String) (st : VState) :
    (vOutDir w k st).table = st.table := by
  unfold vOutDir; split <;> rfl

theorem vOutDir_video (w : VWorld) (k : String) (st : VState) :
    (vOutDir w k st).video = st.video := by
  unfold vOutDir; split <;> rfl

theorem vOutDir_live_mem (w : VWorld) (k : String) (st : VState) (d : ScratchDir)
    (h : d ∈ (vOutDir w k st).live) : d ∈ st.live ∨ d = ScratchDir.videosOut k := by
  unfold vOutDir at h
  split at h
  · rcases List.mem_cons.mp h with h1 | h1
    · exact Or.inr h1
    · exact Or.inl h1
  · exact Or.inl h

theorem planVRes_video (k : String) (cfg : PresetConfig) (st : VState) :
    (planVRes k cfg st).video = st.video := by
  unfold planVRes
  cases findVRes k st.table <;> rfl

theorem planVRes_live (k : String) (cfg : PresetConfig) (st : VState) :
    (planVRes k cfg st).live = st.live := by
  unfold planVRes
  cases findVRes k st.table <;> rfl

theorem markVResFailed_video (k m : String) (st : VState) :
    (markVResFailed k m st).video = st.video := rfl

theorem markVResFailed_live (k m : String) (st : VState) :
    (markVResFailed k m st).live = st.live := rfl

theorem vMarkUploaded_video (w : VWorld) (k : String) (st : VState) :
    (vMarkUploaded w k st).video = st.video := rfl

theorem vMarkLocal_video (w : VWorld) (k : String) (st : VState) :
    (vMarkLocal w k st).video = st.video := rfl

theorem vOutDir_live_true (w : VWorld) (k : String) (st : VState) (h : w.useS3 = true) :
    (vOutDir w k st).live = ScratchDir.videosOut k :: st.live := by
  unfold vOutDir
  rw [if_pos h]

theorem vOutDir_live_false (w : VWorld) (k : String) (st : VState) (h : w.useS3 = false) :
    (vOutDir w k st).live = st.live := by
  unfold vOutDir
  rw [if_neg (by simp [h])]

theorem exists_rec_of_append (k : String) (t : List VideoResolutionRec)
    (x : VideoResolutionRec) (habs : findVRes k t = none) (hx : x.resolution = k)
    (P : VideoResolutionRec → Prop) (hP : P x) :
    ∃ rec, findVRes k (t ++ [x]) = some rec ∧ P rec :=
  ⟨x, findVRes_append_self k t x habs hx, hP⟩

/-- Full effect of one `_process_single_resolution` call on a state whose
table has no row for the call's label yet. -/
theorem processSingleResolution_spec (w : VWorld) (k : String) (cfg : PresetConfig) (st : VState)
    (habs : findVRes k st.table = none) :
    (processSingleResolution w k cfg st).2.video = st.video ∧
    (processSingleResolution w k cfg st).1 = vStepOk w st.video.id k ∧
    (∃ rec, findVRes k (processSingleResolution w k cfg st).2.table = some rec ∧
      rec.processing_completed_at.isSome = vStepOk w st.video.id k ∧
      rec.processing_failed_at.isSome = !(vStepOk w st.video.id k) ∧
      (vStepOk w st.video.id k = false → ∃ m, rec.error_message = some m ∧ m ≠ "")) ∧
    (∀ j, j ≠ k → findVRes j (processSingleResolution w k cfg st).2.table = findVRes j st.table) ∧
    (∀ rec ∈ (processSingleResolution w k cfg st).2.table,
        rec.processing_completed_at.isSome = true →
        vStepOk w st.video.id k = true ∨ rec ∈ st.table) ∧
    (∀ d ∈ (processSingleResolution w k cfg st).2.live,
        d ∈ st.live ∨ (d = ScratchDir.videosOut k ∧ vStepOk w st.video.id k = false)) := by
  have hall := findVRes_absent_all k st.table habs
  have hid : (vOutDir w k (planVRes k cfg st)).video.id = st.video.id := by
    rw [vOutDir_video, planVRes_video]
  by_cases he : (w.enc k).exitCode = 0
  · cases hs3 : w.useS3 with
    | false =>
      have hok : vStepOk w st.video.id k = true := by
        unfold vStepOk
        rw [if_pos he, if_neg (by simp [hs3])]
      have hstep : processSingleResolution w k cfg st
          = (true, vMarkLocal w k (vOutDir w k (planVRes k cfg st))) := by
        unfold processSingleResolution
        simp only [videosFfmpegRun, subprocessRun]
        rw [if_pos he, if_neg (by simp [hs3])]
      rw [hstep]
      refine ⟨?_, ?_, ?_, ?_, ?_, ?_⟩
      · rw [vMarkLocal_video, vOutDir_video, planVRes_video]
      · rw [hok]
      · show ∃ rec, findVRes k (setVRes k _ (vOutDir w k (planVRes k cfg st)).table)
            = some rec ∧
            rec.processing_completed_at.isSome = vStepOk w st.video.id k ∧
            rec.processing_failed_at.isSome = !(vStepOk w st.video.id k) ∧
            (vStepOk w st.video.id k = false → ∃ m, rec.error_message = some m ∧ m ≠ "")
        rw [vOutDir_table, planVRes_absent k cfg st habs]
        show ∃ rec, findVRes k (setVRes k _ (st.table ++ [newVRes k cfg st.clock]))
            = some rec ∧
            rec.processing_completed_at.isSome = vStepOk w st.video.id k ∧
            rec.processing_failed_at.isSome = !(vStepOk w st.video.id k) ∧
            (vStepOk w st.video.id k = false → ∃ m, rec.error_message = some m ∧ m ≠ "")
        rw [setVRes_append_single k _ st.table _ hall rfl]
        refine exists_rec_of_append k st.table _ habs rfl _ ⟨?_, ?_, ?_⟩
        · rw [hok]; rfl
        · rw [hok]; rfl
        · rw [hok]; intro hcontra; exact absurd hcontra (by decide)
      · intro j hj
        show findVRes j (setVRes k _ (vOutDir w k (planVRes k cfg st)).table) = _
        rw [vOutDir_table, planVRes_absent k cfg st habs]
        show findVRes j (setVRes k _ (st.table ++ [newVRes k cfg st.clock])) = _
        rw [setVRes_append_single k _ st.table _ hall rfl]
        exact findVRes_append_other j k st.table _ hj rfl
      · intro rec _ _
        exact Or.inl hok
      · intro d hd
        have hd' : d ∈ (vOutDir w k (planVRes k cfg st)).live := hd
        rw [vOutDir_live_false w k _ hs3, planVRes_live] at hd'
        exact Or.inl hd'
    | true =>
      cases hup : w.uploadOk (vresS3Key st.video.id w.srcBase k) with
      | true =>
        have hok : vStepOk w st.video.id k = true := by
          unfold vStepOk
          rw [if_pos he, if_pos hs3]
          exact hup
        have hstep : processSingleResolution w k cfg st
            = (true, vMarkUploaded w k (vOutDir w k (planVRes k cfg st))) := by
          unfold processSingleResolution
          simp only [videosFfmpegRun, subprocessRun]
          rw [if_pos he, if_pos hs3, hid, if_pos hup]
        rw [hstep]
        refine ⟨?_, ?_, ?_, ?_, ?_, ?_⟩
        · rw [vMarkUploaded_video, vOutDir_video, planVRes_video]
        · rw [hok]
        · show ∃ rec, findVRes k (setVRes k _ (vOutDir w k (planVRes k cfg st)).table)
              = some rec ∧
              rec.processing_completed_at.isSome = vStepOk w st.video.id k ∧
              rec.processing_failed_at.isSome = !(vStepOk w st.video.id k) ∧
              (vStepOk w st.video.id k = false → ∃ m, rec.error_message = some m ∧ m ≠ "")
          rw [vOutDir_table, planVRes_absent k cfg st habs]
          show ∃ rec, findVRes k (setVRes k _ (st.table ++ [newVRes k cfg st.clock]))
              = some rec ∧
              rec.processing_completed_at.isSome = vStepOk w st.video.id k ∧
              rec.processing_failed_at.isSome = !(vStepOk w st.video.id k) ∧
              (vStepOk w st.video.id k = false → ∃ m, rec.error_message = some m ∧ m ≠ "")
          rw [setVRes_append_single k _ st.table _ hall rfl]
          refine exists_rec_of_append k st.table _ habs rfl _ ⟨?_, ?_, ?_⟩
          · rw [hok]; rfl
          · rw [hok]; rfl
          · rw [hok]; intro hcontra; exact absurd hcontra (by decide)
        · intro j hj
          show findVRes j (setVRes k _ (vOutDir w k (planVRes k cfg st)).table) = _
          rw [vOutDir_table, planVRes_absent k cfg st habs]
          show findVRes j (setVRes k _ (st.table ++ [newVRes k cfg st.clock])) = _
          rw [setVRes_append_single k _ st.table _ hall rfl]
          exact findVRes_append_other j k st.table _ hj rfl
        · intro rec _ _
          exact Or.inl hok
        · intro d hd
          have hd' : d ∈ ((vOutDir w k (planVRes k cfg st)).live.filter
              (fun d => d ≠ ScratchDir.videosOut k)) := hd
          rcases List.mem_filter.mp hd' with ⟨hmem, hne⟩
          rw [vOutDir_live_true w k _ hs3] at hmem
          rcases List.mem_cons.mp hmem with h1 | h1
          · exact absurd h1 (by simpa using hne)
          · rw [planVRes_live] at h1
            exact Or.inl h1
      | false =>
        have hfail : vStepOk w st.video.id k = false := by
          unfold vStepOk
          rw [if_pos he, if_pos hs3]
          exact hup
        have hstep : processSingleResolution w k cfg st
            = (false, markVResFailed k "Failed to upload to S3"
                (vOutDir w k (planVRes k cfg st))) := by
          unfold processSingleResolution
          simp only [videosFfmpegRun, subprocessRun]
          rw [if_pos he, if_pos hs3, hid, if_neg (by simp [hup])]
        rw [hstep]
        refine ⟨?_, ?_, ?_, ?_, ?_, ?_⟩
        · rw [markVResFailed_video, vOutDir_video, planVRes_video]
        · rw [hfail]
        · show ∃ rec, findVRes k (setVRes k _ (vOutDir w k (planVRes k cfg st)).table)
              = some rec ∧
              rec.processing_completed_at.isSome = vStepOk w st.video.id k ∧
              rec.processing_failed_at.isSome = !(vStepOk w st.video.id k) ∧
              (vStepOk w st.video.id k = false → ∃ m, rec.error_message = some m ∧ m ≠ "")
          rw [vOutDir_table, planVRes_absent k cfg st habs]
          show ∃ rec, findVRes k (setVRes k _ (st.table ++ [newVRes k cfg st.clock]))
              = some rec ∧
              rec.processing_completed_at.isSome = vStepOk w st.video.id k ∧
              rec.processing_failed_at.isSome = !(vStepOk w st.video.id k) ∧
              (vStepOk w st.video.id k = false → ∃ m, rec.error_message = some m ∧ m ≠ "")
          rw [setVRes_append_single k _ st.table _ hall rfl]
          refine exists_rec_of_append k st.table _ habs rfl _ ⟨?_, ?_, ?_⟩
          · rw [hfail]; rfl
          · rw [hfail]; rfl
          · intro _
            exact ⟨"Failed to upload to S3", rfl, by decide⟩
        · intro j hj
          show findVRes j (setVRes k _ (vOutDir w k (planVRes k cfg st)).table) = _
          rw [vOutDir_table, planVRes_absent k cfg st habs]
          show findVRes j (setVRes k _ (st.table ++ [newVRes k cfg st.clock])) = _
          rw [setVRes_append_single k _ st.table _ hall rfl]
          exact findVRes_append_other j k st.table _ hj rfl
        · intro rec hrec hcomp
          have hrec' : rec ∈ setVRes k _ (vOutDir w k (planVRes k cfg st)).table := hrec
          rw [vOutDir_table, planVRes_absent k cfg st habs] at hrec'
          rw [show ((⟨st.video, st.table ++ [newVRes k cfg st.clock], st.live,
              st.clock + 1⟩ : VState)).table = st.table ++ [newVRes k cfg st.clock] from rfl,
            setVRes_append_single k _ st.table _ hall rfl] at hrec'
          rcases List.mem_append.mp hrec' with h1 | h1
          · exact Or.inr h1
          · rw [List.mem_singleton.mp h1] at hcomp
            simp [newVRes] at hcomp
        · intro d hd
          have hd' : d ∈ (vOutDir w k (planVRes k cfg st)).live := hd
          rw [vOutDir_live_true w k _ hs3] at hd'
          rcases List.mem_cons.mp hd' with h1 | h1
          · exact Or.inr ⟨h1, hfail⟩
          · rw [planVRes_live] at h1
            exact Or.inl h1
  · have hfail : vStepOk w st.video.id k = false := by
      unfold vStepOk
      rw [if_neg he]
    have hstep : processSingleResolution w k cfg st
        = (false, markVResFailed k ("FFmpeg failed: " ++ (w.enc k).stderr)
            (vOutDir w k (planVRes k cfg st))) := by
      unfold processSingleResolution
      simp only [videosFfmpegRun, subprocessRun]
      rw [if_neg he]
    rw [hstep]
    refine ⟨?_, ?_, ?_, ?_, ?_, ?_⟩
    · rw [markVResFailed_video, vOutDir_video, planVRes_video]
    · rw [hfail]
    · show ∃ rec, findVRes k (setVRes k _ (vOutDir w k (planVRes k cfg st)).table)
          = some rec ∧
          rec.processing_completed_at.isSome = vStepOk w st.video.id k ∧
          rec.processing_failed_at.isSome = !(vStepOk w st.video.id k) ∧
          (vStepOk w st.video.id k = false → ∃ m, rec.error_message = some m ∧ m ≠ "")
      rw [vOutDir_table, planVRes_absent k cfg st habs]
      show ∃ rec, findVRes k (setVRes k _ (st.table ++ [newVRes k cfg st.clock]))
          = some rec ∧
          rec.processing_completed_at.isSome = vStepOk w st.video.id k ∧
          rec.processing_failed_at.isSome = !(vStepOk w st.video.id k) ∧
          (vStepOk w st.video.id k = false → ∃ m, rec.error_message = some m ∧ m ≠ "")
      rw [setVRes_append_single k _ st.table _ hall rfl]
      refine exists_rec_of_append k st.table _ habs rfl _ ⟨?_, ?_, ?_⟩
      · rw [hfail]; rfl
      · rw [hfail]; rfl
      · intro _
        exact ⟨"FFmpeg failed: " ++ (w.enc k).stderr, rfl,
          append_ne_empty_left _ _ (by decide)⟩
    · intro j hj
      show findVRes j (setVRes k _ (vOutDir w k (planVRes k cfg st)).table) = _
      rw [vOutDir_table, planVRes_absent k cfg st habs]
      show findVRes j (setVRes k _ (st.table ++ [newVRes k cfg st.clock])) = _
      rw [setVRes_append_single k _ st.table _ hall rfl]
      exact findVRes_append_other j k st.table _ hj rfl
    · intro rec hrec hcomp
      have hrec' : rec ∈ setVRes k _ (vOutDir w k (planVRes k cfg st)).table := hrec
      rw [vOutDir_table, planVRes_absent k cfg st habs] at hrec'
      rw [show ((⟨st.video, st.table ++ [newVRes k cfg st.clock], st.live,
          st.clock + 1⟩ : VState)).table = st.table ++ [newVRes k cfg st.clock] from rfl,
        setVRes_append_single k _ st.table _ hall rfl] at hrec'
      rcases List.mem_append.mp hrec' with h1 | h1
      · exact Or.inr h1
      · rw [List.mem_singleton.mp h1] at hcomp
        simp [newVRes] at hcomp
    · intro d hd
      have hd' : d ∈ (vOutDir w k (planVRes k cfg st)).live := hd
      rcases vOutDir_live_mem w k _ d hd' with h1 | h1
      · rw [planVRes_live] at h1
        exact Or.inl h1
      · exact Or.inr ⟨h1, hfail⟩

theorem applyProbeV_table (p : Option ProbeInfo) (st : VState) :
    (applyProbeV p st).table = st.table := by
  cases p <;> rfl

theorem applyProbeV_id (p : Option ProbeInfo) (st : VState) :
    (applyProbeV p st).video.id = st.video.id := by
  cases p <;> rfl

theorem applyProbeV_live (p : Option ProbeInfo) (st : VState) :
    (applyProbeV p st).live = st.live := by
  cases p <;> rfl

/-- Aggregate effect of the per-preset loop of `process_resolutions` on a
state holding no rows for the catalog's labels. -/
theorem processResolutionsLoop_spec (w : VWorld) (cat : Catalog) (st : VState)
    (hnd : (cat.map Prod.fst).Nodup)
    (habs : ∀ kc ∈ cat, findVRes kc.1 st.table = none) :
    (processResolutionsLoop w cat st).2.video = st.video ∧
    ((processResolutionsLoop w cat st).1
      = (cat.filter (fun kc => vStepOk w st.video.id kc.1)).length) ∧
    (∀ kc ∈ cat, ∃ rec,
      findVRes kc.1 (processResolutionsLoop w cat st).2.table = some rec ∧
      rec.processing_completed_at.isSome = vStepOk w st.video.id kc.1 ∧
      rec.processing_failed_at.isSome = !(vStepOk w st.video.id kc.1) ∧
      (vStepOk w st.video.id kc.1 = false → ∃ m, rec.error_message = some m ∧ m ≠ "")) ∧
    (∀ j, j ∉ cat.map Prod.fst →
      findVRes j (processResolutionsLoop w cat st).2.table = findVRes j st.table) ∧
    (∀ rec ∈ (processResolutionsLoop w cat st).2.table,
      rec.processing_completed_at.isSome = true →
      (∃ kc ∈ cat, vStepOk w st.video.id kc.1 = true) ∨ rec ∈ st.table) ∧
    (∀ d ∈ (processResolutionsLoop w cat st).2.live,
      d ∈ st.live ∨ ∃ k', k' ∈ cat.map Prod.fst ∧ d = ScratchDir.videosOut k' ∧
        vStepOk w st.video.id k' = false) := by
  induction cat generalizing st with
  | nil =>
    refine ⟨rfl, rfl, by simp, fun j _ => rfl, fun rec hrec _ => Or.inr hrec,
      fun d hd => Or.inl hd⟩
  | cons kc rest ih =>
    obtain ⟨hS1, hS2, hS3, hS4, hS5, hS6⟩ :=
      processSingleResolution_spec w kc.1 kc.2 st (habs kc (by simp))
    have hknotin : kc.1 ∉ rest.map Prod.fst := by
      have := hnd
      rw [List.map_cons, List.nodup_cons] at this
      exact this.1
    have hndrest : (rest.map Prod.fst).Nodup := by
      have := hnd
      rw [List.map_cons, List.nodup_cons] at this
      exact this.2
    have habsrest : ∀ x ∈ rest, findVRes x.1 (processSingleResolution w kc.1 kc.2 st).2.table = none := by
      intro x hx
      have hne : x.1 ≠ kc.1 := by
        intro he
        exact hknotin (he ▸ List.mem_map_of_mem Prod.fst hx)
      rw [hS4 x.1 hne]
      exact habs x (List.mem_cons_of_mem kc hx)
    obtain ⟨hI1, hI2, hI3, hI4, hI5, hI6⟩ :=
      ih (processSingleResolution w kc.1 kc.2 st).2 hndrest habsrest
    have hidv : (processSingleResolution w kc.1 kc.2 st).2.video.id = st.video.id := by
      rw [hS1]
    rw [hidv] at hI2 hI3 hI5 hI6
    have hloopeq : processResolutionsLoop w (kc :: rest) st
        = ((if (processSingleResolution w kc.1 kc.2 st).1 then 1 else 0)
            + (processResolutionsLoop w rest (processSingleResolution w kc.1 kc.2 st).2).1,
          (processResolutionsLoop w rest (processSingleResolution w kc.1 kc.2 st).2).2) := rfl
    rw [hloopeq]
    refine ⟨?_, ?_, ?_, ?_, ?_, ?_⟩
    · show (processResolutionsLoop w rest (processSingleResolution w kc.1 kc.2 st).2).2.video
        = st.video
      rw [hI1, hS1]
    · show (if (processSingleResolution w kc.1 kc.2 st).1 then 1 else 0)
          + (processResolutionsLoop w rest (processSingleResolution w kc.1 kc.2 st).2).1
        = ((kc :: rest).filter (fun x => vStepOk w st.video.id x.1)).length
      rw [hI2, hS2, List.filter_cons]
      cases hsk : vStepOk w st.video.id kc.1 with
      | true => simp only [if_pos rfl, if_true, List.length_cons]; omega
      | false => simp only [Bool.false_eq_true, if_false]; omega
    · intro x hx
      rcases List.mem_cons.mp hx with he | hm
      · subst he
        obtain ⟨rec, hfind, hrest⟩ := hS3
        refine ⟨rec, ?_, hrest⟩
        rw [hI4 x.1 hknotin]
        exact hfind
      · exact hI3 x hm
    · intro j hj
      have hj1 : j ≠ kc.1 := by
        intro he
        exact hj (by simp [he])
      have hj2 : j ∉ rest.map Prod.fst := by
        intro hmem
        exact hj (by simp [hmem])
      rw [hI4 j hj2, hS4 j hj1]
    · intro rec hrec hcomp
      rcases hI5 rec hrec hcomp with ⟨x, hx, hxok⟩ | hold
      · exact Or.inl ⟨x, List.mem_cons_of_mem kc hx, hxok⟩
      · rcases hS5 rec hold hcomp with hok | hmem
        · exact Or.inl ⟨kc, by simp, hok⟩
        · exact Or.inr hmem
    · intro d hd
      rcases hI6 d hd with hdin | ⟨k', hk', hdk', hnok⟩
      · rcases hS6 d hdin with h1 | ⟨h1, h2⟩
        · exact Or.inl h1
        · exact Or.inr ⟨kc.1, by simp, h1, h2⟩
      · exact Or.inr ⟨k', by simp [hk'], hdk', hnok⟩

/-- Aggregate effect of a full `process_resolutions` run started with an
empty rendition table (fresh job): job status against per-rendition
outcomes, rendition marking, and surviving scratch directories. -/
theorem processResolutions_spec (w : VWorld) (cat : Catalog) (st : VState)
    (hnd : (cat.map Prod.fst).Nodup) (htab : st.table = [])
    (hlive : ∀ d ∈ st.live, d = ScratchDir.videosMain) :
    ((processResolutions w cat st).2.video.processing_status = "completed"
      ↔ ∃ kc ∈ cat, vStepOk w st.video.id kc.1 = true) ∧
    ((processResolutions w cat st).2.video.processing_status = "failed"
      ↔ ∀ kc ∈ cat, vStepOk w st.video.id kc.1 = false) ∧
    (∀ kc ∈ cat, ∃ rec,
      findVRes kc.1 (processResolutions w cat st).2.table = some rec ∧
      rec.processing_completed_at.isSome = vStepOk w st.video.id kc.1 ∧
      rec.processing_failed_at.isSome = !(vStepOk w st.video.id kc.1) ∧
      (vStepOk w st.video.id kc.1 = false → ∃ m, rec.error_message = some m ∧ m ≠ "")) ∧
    (∀ rec ∈ (processResolutions w cat st).2.table,
      rec.processing_completed_at.isSome = true →
      ∃ kc ∈ cat, vStepOk w st.video.id kc.1 = true) ∧
    (ScratchDir.videosMain ∉ (processResolutions w cat st).2.live) ∧
    (∀ d ∈ (processResolutions w cat st).2.live,
      ∃ k', k' ∈ cat.map Prod.fst ∧ d = ScratchDir.videosOut k' ∧
        vStepOk w st.video.id k' = false) := by
  have hST2tab :
      (applyProbeV w.probe
        { st with video := { st.video with processing_status := "processing" } }).table = [] := by
    rw [applyProbeV_table]
    exact htab
  have hID :
      (applyProbeV w.probe
        { st with video := { st.video with processing_status := "processing" } }).video.id
      = st.video.id := by
    rw [applyProbeV_id]
  obtain ⟨hL1, hL2, hL3, hL4, hL5, hL6⟩ := processResolutionsLoop_spec w cat
    (applyProbeV w.probe { st with video := { st.video with processing_status := "processing" } })
    hnd (by intro kc _; rw [hST2tab]; rfl)
  rw [hID] at hL2 hL3 hL5 hL6
  have htabF : (processResolutions w cat st).2.table
      = (processResolutionsLoop w cat
          (applyProbeV w.probe
            { st with video := { st.video with processing_status := "processing" } })).2.table := by
    simp only [processResolutions]
    split <;> rfl
  have hliveF : (processResolutions w cat st).2.live
      = (processResolutionsLoop w cat
          (applyProbeV w.probe
            { st with video := { st.video with processing_status := "processing" } })).2.live.filter
          (fun d => d ≠ ScratchDir.videosMain) := by
    simp only [processResolutions]
    split <;> rfl
  have hstatF : (processResolutions w cat st).2.video.processing_status
      = (if 0 < (processResolutionsLoop w cat
          (applyProbeV w.probe
            { st with video := { st.video with processing_status := "processing" } })).1
        then "completed" else "failed") := by
    simp only [processResolutions]
    split <;> rfl
  have hcnt : 0 < (processResolutionsLoop w cat
        (applyProbeV w.probe
          { st with video := { st.video with processing_status := "processing" } })).1
      ↔ ∃ kc ∈ cat, vStepOk w st.video.id kc.1 = true := by
    rw [hL2]
    constructor
    · intro h
      obtain ⟨x, hx⟩ := List.exists_mem_of_ne_nil _ (List.length_pos.mp h)
      obtain ⟨hx1, hx2⟩ := List.mem_filter.mp hx
      exact ⟨x, hx1, by simpa using hx2⟩
    · rintro ⟨x, hx, hok⟩
      apply List.length_pos.mpr
      intro hnil
      have := List.filter_eq_nil_iff.mp hnil x hx
      simp [hok] at this
  have hstat2 : ((processResolutions w cat st).2.video.processing_status = "completed")
      ↔ 0 < (processResolutionsLoop w cat
          (applyProbeV w.probe
            { st with video := { st.video with processing_status := "processing" } })).1 := by
    rw [hstatF]
    split
    · rename_i h; exact iff_of_true rfl h
    · rename_i h; exact iff_of_false (by decide) h
  have hstat3 : ((processResolutions w cat st).2.video.processing_status = "failed")
      ↔ ¬ 0 < (processResolutionsLoop w cat
          (applyProbeV w.probe
            { st with video := { st.video with processing_status := "processing" } })).1 := by
    rw [hstatF]
    split
    · rename_i h; exact iff_of_false (by decide) (fun hn => hn h)
    · rename_i h; exact iff_of_true rfl h
  refine ⟨hstat2.trans hcnt, ?_, ?_, ?_, ?_, ?_⟩
  · rw [hstat3]
    constructor
    · intro h kc hkc
      cases hfk : vStepOk w st.video.id kc.1 with
      | true => exact absurd (hcnt.mpr ⟨kc, hkc, hfk⟩) h
      | false => rfl
    · rintro h hpos
      obtain ⟨kc, hkc, hok⟩ := hcnt.mp hpos
      rw [h kc hkc] at hok
      exact Bool.false_ne_true hok
  · intro kc hkc
    rw [htabF]
    exact hL3 kc hkc
  · intro rec hrec hcomp
    rw [htabF] at hrec
    rcases hL5 rec hrec hcomp with h | hmem
    · exact h
    · rw [hST2tab] at hmem
      simp at hmem
  · intro hmem
    rw [hliveF] at hmem
    obtain ⟨_, hne⟩ := List.mem_filter.mp hmem
    simp at hne
  · intro d hd
    rw [hliveF] at hd
    obtain ⟨hm, hne⟩ := List.mem_filter.mp hd
    rcases hL6 d hm with hin | hex
    · have : d ∈ st.live := by
        rw [applyProbeV_live] at hin
        exact hin
      rw [hlive d this] at hne
      simp at hne
    · exact hex

/-! ### Planner idempotence machinery -/

/-- Number of `HLSVariant` rows carrying a given resolution label. -/
def countVariant (k : String) (t : List HLSVariantRec) : Nat :=
  (t.filter (fun r => r.resolution = k)).length

/-- Number of `VideoResolution` rows carrying a given resolution label. -/
def countVRes (k : String) (t : List VideoResolutionRec) : Nat :=
  (t.filter (fun r => r.resolution = k)).length

/-- Repeated invocation of the HLS variant planner. -/
def planIter (cat : Catalog) : Nat → HLSState → HLSState
  | 0, st => st
  | n + 1, st => planIter cat n (planVariants cat st)

/-- Planner pass of independent mode: the `get_or_create`-and-reset step
of `_process_single_resolution`, executed once per catalog entry. -/
def planVResAll (cat : Catalog) (st : VState) : VState :=
  cat.foldl (fun s kc => planVRes kc.1 kc.2 s) st

/-- Repeated invocation of the independent-mode planner pass. -/
def planVResIter (cat : Catalog) : Nat → VState → VState
  | 0, st => st
  | n + 1, st => planVResIter cat n (planVResAll cat st)

theorem findVariant_none_iff (k : String) (t : List HLSVariantRec) :
    findVariant k t = none ↔ countVariant k t = 0 := by
  constructor
  · intro h
    unfold countVariant
    rw [List.length_eq_zero, List.filter_eq_nil_iff]
    exact List.find?_eq_none.mp h
  · intro h
    unfold findVariant
    rw [List.find?_eq_none]
    exact List.filter_eq_nil_iff.mp (List.length_eq_zero.mp h)

theorem countVariant_getOrCreate_self (k : String) (cfg : PresetConfig) (st : HLSState) :
    countVariant k (getOrCreateVariant k cfg st).variants
      = max (countVariant k st.variants) 1 := by
  unfold getOrCreateVariant
  cases hf : findVariant k st.variants with
  | some r =>
    have hpos : 0 < countVariant k st.variants := by
      unfold countVariant
      rw [List.length_pos]
      intro hnil
      have hf2 : List.find? (fun x => decide (x.resolution = k)) st.variants = some r := hf
      have hp := @List.find?_some HLSVariantRec
        (fun x => decide (x.resolution = k)) r st.variants hf2
      exact (List.filter_eq_nil_iff.mp hnil r (List.mem_of_find?_eq_some hf2)) hp
    show countVariant k st.variants = max (countVariant k st.variants) 1
    exact (Nat.max_eq_left hpos).symm
  | none =>
    have h0 : countVariant k st.variants = 0 := (findVariant_none_iff k _).mp hf
    show countVariant k (st.variants ++ [newVariant k cfg st.clock]) = _
    unfold countVariant at *
    rw [List.filter_append, List.length_append,
      show List.filter (fun r => decide (r.resolution = k)) [newVariant k cfg st.clock]
        = [newVariant k cfg st.clock] by simp [newVariant]]
    rw [h0]
    simp

theorem countVariant_getOrCreate_other (j k : String) (cfg : PresetConfig) (st : HLSState)
    (hjk : j ≠ k) :
    countVariant j (getOrCreateVariant k cfg st).variants = countVariant j st.variants := by
  unfold getOrCreateVariant
  cases hf : findVariant k st.variants with
  | some r => rfl
  | none =>
    show countVariant j (st.variants ++ [newVariant k cfg st.clock]) = _
    unfold countVariant
    rw [List.filter_append,
      show List.filter (fun r => decide (r.resolution = j)) [newVariant k cfg st.clock] = []
        by simp [newVariant, Ne.symm hjk]]
    simp

theorem countVariant_plan (cat : Catalog) (st : HLSState) (j : String) :
    countVariant j (planVariants cat st).variants
      = if j ∈ cat.map Prod.fst then max (countVariant j st.variants) 1
        else countVariant j st.variants := by
  induction cat generalizing st with
  | nil => simp [planVariants]
  | cons kc rest ih =>
    show countVariant j (planVariants rest (getOrCreateVariant kc.1 kc.2 st)).variants = _
    rw [ih]
    by_cases hj : j ∈ rest.map Prod.fst
    · rw [if_pos hj, if_pos (by simp [hj])]
      by_cases hjk : j = kc.1
      · subst hjk
        rw [countVariant_getOrCreate_self, max_assoc, max_self]
      · rw [countVariant_getOrCreate_other j kc.1 kc.2 st hjk]
    · rw [if_neg hj]
      by_cases hjk : j = kc.1
      · subst hjk
        rw [countVariant_getOrCreate_self, if_pos (by simp)]
      · rw [countVariant_getOrCreate_other j kc.1 kc.2 st hjk, if_neg (by simp [hjk, hj])]

theorem countVariant_planIter (cat : Catalog) (j : String) (n : Nat) (hn : 1 ≤ n)
    (st : HLSState) :
    countVariant j (planIter cat n st).variants
      = if j ∈ cat.map Prod.fst then max (countVariant j st.variants) 1
        else countVariant j st.variants := by
  induction n generalizing st with
  | zero => omega
  | succ n ih =>
    show countVariant j (planIter cat n (planVariants cat st)).variants = _
    cases n with
    | zero => exact countVariant_plan cat st j
    | succ m =>
      rw [ih (by omega) (planVariants cat st), countVariant_plan]
      by_cases hj : j ∈ cat.map Prod.fst
      · simp [hj, max_assoc]
      · simp [hj]

theorem countVRes_setVRes (j k : String) (f : VideoResolutionRec → VideoResolutionRec)
    (t : List VideoResolutionRec) (hf : ∀ r, (f r).resolution = r.resolution) :
    countVRes j (setVRes k f t) = countVRes j t := by
  induction t with
  | nil => rfl
  | cons r rest ih =>
    have hres : (if r.resolution = k then f r else r).resolution = r.resolution := by
      split
      · exact hf r
      · rfl
    show countVRes j ((if r.resolution = k then f r else r) :: setVRes k f rest)
      = countVRes j (r :: rest)
    unfold countVRes at *
    rw [List.filter_cons, List.filter_cons, hres]
    cases hd : decide (r.resolution = j) with
    | true => simpa using ih
    | false => simpa using ih

theorem findVRes_none_iff (k : String) (t : List VideoResolutionRec) :
    findVRes k t = none ↔ countVRes k t = 0 := by
  constructor
  · intro h
    unfold countVRes
    rw [List.length_eq_zero, List.filter_eq_nil_iff]
    exact List.find?_eq_none.mp h
  · intro h
    unfold findVRes
    rw [List.find?_eq_none]
    exact List.filter_eq_nil_iff.mp (List.length_eq_zero.mp h)

theorem countVRes_planVRes_self (k : String) (cfg : PresetConfig) (st : VState) :
    countVRes k (planVRes k cfg st).table = max (countVRes k st.table) 1 := by
  unfold planVRes
  cases hf : findVRes k st.table with
  | some r =>
    have hpos : 0 < countVRes k st.table := by
      unfold countVRes
      rw [List.length_pos]
      intro hnil
      have hf2 : List.find? (fun x => decide (x.resolution = k)) st.table = some r := hf
      have hp := @List.find?_some VideoResolutionRec
        (fun x => decide (x.resolution = k)) r st.table hf2
      exact (List.filter_eq_nil_iff.mp hnil r (List.mem_of_find?_eq_some hf2)) hp
    show countVRes k (setVRes k (resetVRes st.clock) st.table)
      = max (countVRes k st.table) 1
    rw [countVRes_setVRes k k (resetVRes st.clock) st.table (fun r => rfl)]
    exact (Nat.max_eq_left hpos).symm
  | none =>
    have h0 : countVRes k st.table = 0 := (findVRes_none_iff k _).mp hf
    show countVRes k (st.table ++ [newVRes k cfg st.clock]) = _
    unfold countVRes at *
    rw [List.filter_append, List.length_append,
      show List.filter (fun r => decide (r.resolution = k)) [newVRes k cfg st.clock]
        = [newVRes k cfg st.clock] by simp [newVRes]]
    rw [h0]
    simp

theorem countVRes_planVRes_other (j k : String) (cfg : PresetConfig) (st : VState)
    (hjk : j ≠ k) :
    countVRes j (planVRes k cfg st).table = countVRes j st.table := by
  unfold planVRes
  cases hf : findVRes k st.table with
  | some r =>
    show countVRes j (setVRes k (resetVRes st.clock) st.table) = _
    rw [countVRes_setVRes j k (resetVRes st.clock) st.table (fun r => rfl)]
  | none =>
    show countVRes j (st.table ++ [newVRes k cfg st.clock]) = _
    unfold countVRes
    rw [List.filter_append,
      show List.filter (fun r => decide (r.resolution = j)) [newVRes k cfg st.clock] = []
        by simp [newVRes, Ne.symm hjk]]
    simp

theorem countVRes_planAll (cat : Catalog) (st : VState) (j : String) :
    countVRes j (planVResAll cat st).table
      = if j ∈ cat.map Prod.fst then max (countVRes j st.table) 1
        else countVRes j st.table := by
  induction cat generalizing st with
  | nil => simp [planVResAll]
  | cons kc rest ih =>
    show countVRes j (planVResAll rest (planVRes kc.1 kc.2 st)).table = _
    rw [ih]
    by_cases hj : j ∈ rest.map Prod.fst
    · rw [if_pos hj, if_pos (by simp [hj])]
      by_cases hjk : j = kc.1
      · subst hjk
        rw [countVRes_planVRes_self, max_assoc, max_self]
      · rw [countVRes_planVRes_other j kc.1 kc.2 st hjk]
    · rw [if_neg hj]
      by_cases hjk : j = kc.1
      · subst hjk
        rw [countVRes_planVRes_self, if_pos (by simp)]
      · rw [countVRes_planVRes_other j kc.1 kc.2 st hjk, if_neg (by simp [hjk, hj])]

theorem countVRes_planIter (cat : Catalog) (j : String) (n : Nat) (hn : 1 ≤ n)
    (st : VState) :
    countVRes j (planVResIter cat n st).table
      = if j ∈ cat.map Prod.fst then max (countVRes j st.table) 1
        else countVRes j st.table := by
  induction n generalizing st with
  | zero => omega
  | succ n ih =>
    show countVRes j (planVResIter cat n (planVResAll cat st)).table = _
    cases n with
    | zero => exact countVRes_planAll cat st j
    | succ m =>
      rw [ih (by omega) (planVResAll cat st), countVRes_planAll]
      by_cases hj : j ∈ cat.map Prod.fst
      · simp [hj, max_assoc]
      · simp [hj]

theorem processToHLS_fst (w : HLSWorld) (cat : Catalog) (st : HLSState) :
    (processToHLS w cat st).1 = (hlsTryBody w cat st).2.isNone := by
  unfold processToHLS
  rcases hx : (hlsTryBody w cat st).2 with _ | m <;> simp [hx]

/-! ### Claims -/

/-- Example preset catalog of the spec's ascending-order property, in the
stated order 720p, 480p, 1080p. -/
def exCatC1 : Catalog :=
  [("720p", ⟨1280, 720, "2500k"⟩), ("480p", ⟨854, 480, "1000k"⟩),
   ("1080p", ⟨1920, 1080, "5000k"⟩)]

/-- C1 counterexample: for the catalog `{720p, 480p, 1080p}` given in that
order, the master manifest's stream-info entries are emitted as 720p,
480p, 1080p — catalog order, with widths 1280, 854, 1920, which is not
ascending.  The claim that entries are emitted in ascending width order
regardless of catalog order is false. -/
theorem manifest_not_width_sorted_counterexample :
    ((streamEntries exCatC1).toOption.map (List.map StreamEntry.resKey)
      = some ["720p", "480p", "1080p"]) ∧
    ((streamEntries exCatC1).toOption.map (List.map StreamEntry.width)
      = some [1280, 854, 1920]) ∧
    ¬ List.Chain' (fun a b => a ≤ b) ([1280, 854, 1920] : List Nat) := by
  refine ⟨rfl, rfl, ?_⟩
  intro h
  rcases List.chain'_cons.mp h with ⟨h1, _⟩
  omega

/-- C1 (amended): for every preset catalog whose bitrates all parse, the
stream-info entries of the generated master manifest are emitted in the
catalog's own (insertion) order — one entry per preset, keys in catalog
order — not sorted by width. -/
theorem master_manifest_entries_follow_catalog_order (cat : Catalog)
    (h : ∀ kc ∈ cat, (bandwidthOf kc.2.bitrate).isSome = true) :
    ∃ es, streamEntries cat = Except.ok es ∧
      es.map StreamEntry.resKey = cat.map Prod.fst :=
  streamEntries_ok_of_parses cat h

/-- C1 witness: the amended order theorem evaluated on the example
catalog. -/
theorem master_manifest_entries_follow_catalog_order_witness :
    ∃ es, streamEntries exCatC1 = Except.ok es ∧
      es.map StreamEntry.resKey = ["720p", "480p", "1080p"] := by
  obtain ⟨es, h1, h2⟩ := master_manifest_entries_follow_catalog_order exCatC1 (by decide)
  exact ⟨es, h1, by rw [h2]; rfl⟩

/-- C9: for every preset whose bitrate string is a decimal numeral
followed by `k`, the BANDWIDTH value computed for the master manifest is
exactly that numeral times 1000. -/
theorem bandwidth_is_numeral_times_1000 (ds : String) (hne : ds.data ≠ [])
    (h : ∀ c ∈ ds.data, c.isDigit = true) :
    bandwidthOf (ds ++ "k") = some (Int.ofNat (decValue ds.data) * 1000) :=
  bandwidthOf_digits ds hne h

/-- C9 witness: bitrate `"2500k"` yields bandwidth exactly 2500000. -/
theorem bandwidth_is_numeral_times_1000_witness :
    bandwidthOf "2500k" = some 2500000 := by
  have h := bandwidth_is_numeral_times_1000 "2500" (by decide) (by decide)
  have he : ("2500" ++ "k" : String) = "2500k" := by decide
  rw [he] at h
  rw [h]
  decide

/-- C10: in streaming mode, for any catalog containing a bitrate whose
k-stripped remainder fails integer parsing, a run whose stage-in and
encoder invocations all succeed still ends with the job marked `failed`
(and `process_to_hls` returning `False`), because master-manifest
synthesis raises on the parse. -/
theorem bad_bitrate_fails_streaming_job (w : HLSWorld) (cat : Catalog) (st : HLSState)
    (hdl : w.downloadOk = true)
    (henc : ∀ kc ∈ cat, (w.enc kc.1).runtime ≤ 3600 ∧ (w.enc kc.1).exitCode = 0)
    (hbad : ∃ kc ∈ cat, pyInt (pyRemoveK kc.2.bitrate) = none) :
    (processToHLS w cat st).2.video.processing_status = "failed" ∧
    (processToHLS w cat st).1 = false := by
  have hbad2 : ∃ kc ∈ cat, bandwidthOf kc.2.bitrate = none := by
    obtain ⟨kc, hkc, hb⟩ := hbad
    refine ⟨kc, hkc, ?_⟩
    unfold bandwidthOf
    rw [hb]
    rfl
  obtain ⟨s, hs⟩ := hlsMainStages_err_of_badbw w cat (hlsWorkspace (hlsStart st)) henc hbad2
  have htry : (hlsTryBody w cat st).2 = some (intParseErrMsg s) := by
    rw [hlsTryBody_eq_main w cat st hdl]
    exact hs
  refine ⟨(processToHLS_of_err w cat st _ htry).1, ?_⟩
  rw [processToHLS_fst, htry]
  rfl

/-- World of the C10 witness: stage-in and all encodes succeed. -/
def wC10 : HLSWorld :=
  { downloadOk := true, probe := none, enc := fun _ => ⟨60, 0, ""⟩,
    segs := fun _ => 1, uploadOk := fun _ => true }

/-- Catalog of the C10 witness with the unparsable bitrate "2.5M". -/
def catC10 : Catalog := [("720p", ⟨1280, 720, "2.5M"⟩)]

/-- C10 witness: a run over a catalog containing bitrate `"2.5M"` with
successful stage-in and encodes still ends failed. -/
theorem bad_bitrate_fails_streaming_job_witness :
    (processToHLS wC10 catC10 (initHLSState 1)).2.video.processing_status = "failed" ∧
    (processToHLS wC10 catC10 (initHLSState 1)).1 = false :=
  bad_bitrate_fails_streaming_job wC10 catC10 (initHLSState 1) rfl (by decide)
    ⟨("720p", ⟨1280, 720, "2.5M"⟩), by decide, by decide⟩

theorem findVRes_mem (k : String) (t : List VideoResolutionRec) (rec : VideoResolutionRec)
    (h : findVRes k t = some rec) : rec ∈ t := by
  have h2 : List.find? (fun x => decide (x.resolution = k)) t = some rec := h
  exact List.mem_of_find?_eq_some h2

theorem initVState_live_main (w : VWorld) (vid : Nat) :
    ∀ d ∈ (initVState w vid).live, d = ScratchDir.videosMain := by
  intro d hd
  have hd2 : d ∈ (if w.inputIsS3 then [ScratchDir.videosMain] else []) := hd
  split at hd2
  · simpa using hd2
  · simp at hd2

/-- C2: for every independent-rendition run over a non-empty preset
catalog started on a fresh job, the final job status is `completed` iff
at least one rendition row is completed, and `failed` iff no rendition
row is completed. -/
theorem independent_job_status_iff_some_rendition_completed (w : VWorld) (cat : Catalog)
    (vid : Nat) (hne : cat ≠ []) (hnd : (cat.map Prod.fst).Nodup) :
    ((processResolutions w cat (initVState w vid)).2.video.processing_status = "completed"
      ↔ ∃ rec ∈ (processResolutions w cat (initVState w vid)).2.table,
          rec.processing_completed_at.isSome = true) ∧
    ((processResolutions w cat (initVState w vid)).2.video.processing_status = "failed"
      ↔ ∀ rec ∈ (processResolutions w cat (initVState w vid)).2.table,
          rec.processing_completed_at.isSome = false) := by
  obtain ⟨h1, h2, h3, h4, _, _⟩ :=
    processResolutions_spec w cat (initVState w vid) hnd rfl (initVState_live_main w vid)
  constructor
  · rw [h1]
    constructor
    · rintro ⟨kc, hkc, hok⟩
      obtain ⟨rec, hfind, hcomp, _, _⟩ := h3 kc hkc
      exact ⟨rec, findVRes_mem kc.1 _ rec hfind, by rw [hcomp]; exact hok⟩
    · rintro ⟨rec, hrec, hcomp⟩
      exact h4 rec hrec hcomp
  · rw [h2]
    constructor
    · intro hall rec hrec
      cases hcomp : rec.processing_completed_at.isSome with
      | false => rfl
      | true =>
        obtain ⟨kc, hkc, hok⟩ := h4 rec hrec hcomp
        rw [hall kc hkc] at hok
        exact absurd hok (by decide)
    · intro hall kc hkc
      obtain ⟨rec, hfind, hcomp, _, _⟩ := h3 kc hkc
      rw [← hcomp]
      exact hall rec (findVRes_mem kc.1 _ rec hfind)

/-- World of the C2 witness: the single rendition encodes successfully to
local storage. -/
def wC2 : VWorld :=
  { useS3 := false, inputIsS3 := false, srcBase := "clip", probe := none,
    enc := fun _ => ⟨60, 0, ""⟩, outSize := fun _ => 9, uploadOk := fun _ => true }

/-- Catalog of the C2 witness. -/
def catC2 : Catalog := [("480p", ⟨854, 480, "1000k"⟩)]

/-- C2 witness: the status iff evaluated on a concrete one-preset run. -/
theorem independent_job_status_iff_some_rendition_completed_witness :
    ((processResolutions wC2 catC2 (initVState wC2 7)).2.video.processing_status = "completed"
      ↔ ∃ rec ∈ (processResolutions wC2 catC2 (initVState wC2 7)).2.table,
          rec.processing_completed_at.isSome = true) ∧
    ((processResolutions wC2 catC2 (initVState wC2 7)).2.video.processing_status = "failed"
      ↔ ∀ rec ∈ (processResolutions wC2 catC2 (initVState wC2 7)).2.table,
          rec.processing_completed_at.isSome = false) :=
  independent_job_status_iff_some_rendition_completed wC2 catC2 7 (by decide) (by decide)

/-- C3 (amended): a streaming-mode run that ends with the job `failed`
always carries a non-empty error detail; an independent-mode job row has
no error-detail column at all, so a failed independent run carries
none. -/
theorem failed_job_error_detail_by_mode :
    (∀ (w : HLSWorld) (cat : Catalog) (st : HLSState),
      (processToHLS w cat st).2.video.processing_status = "failed" →
      (processToHLS w cat st).2.video.error_message ≠ "") ∧
    (∀ v : VideoRec, videoErrorDetail v = none) := by
  constructor
  · intro w cat st hfail
    rcases hlsTryBody_cases w cat st with ⟨m, hm, hne⟩ | ⟨hnone, hok⟩
    · rw [(processToHLS_of_err w cat st m hm).2]
      exact hne
    · rw [processToHLS_of_ok w cat st hnone, hok] at hfail
      exact absurd hfail (by decide)
  · intro v
    rfl

/-- World of the C3 counterexample: a fresh independent-mode job whose
only encode fails. -/
def wC3 : VWorld :=
  { useS3 := false, inputIsS3 := false, srcBase := "clip", probe := none,
    enc := fun _ => ⟨5, 1, "boom"⟩, outSize := fun _ => 0, uploadOk := fun _ => true }

/-- Catalog of the C3 counterexample. -/
def catC3 : Catalog := [("480p", ⟨854, 480, "1000k"⟩)]

/-- C3 counterexample: an independent-mode run ends with the job `failed`,
yet the job record carries no error detail — the `Video` model has no
error-detail column.  The claim that in both output modes a failed job
carries a non-empty error detail is false. -/
theorem failed_job_without_error_detail_counterexample :
    (processResolutions wC3 catC3 (initVState wC3 9)).2.video.processing_status = "failed" ∧
    videoErrorDetail (processResolutions wC3 catC3 (initVState wC3 9)).2.video = none :=
  ⟨rfl, rfl⟩

/-- World of the C3 witness: a streaming run whose stage-in fails. -/
def wC3h : HLSWorld :=
  { downloadOk := false, probe := none, enc := fun _ => ⟨1, 0, ""⟩,
    segs := fun _ => 0, uploadOk := fun _ => true }

/-- C3 witness: the streaming half of the amended theorem evaluated on a
concrete failing run. -/
theorem failed_job_error_detail_by_mode_witness :
    (processToHLS wC3h [] (initHLSState 2)).2.video.error_message ≠ "" :=
  failed_job_error_detail_by_mode.1 wC3h [] (initHLSState 2) rfl

theorem hlsTryBody_none_loop (w : HLSWorld) (cat : Catalog) (st : HLSState)
    (h : (hlsTryBody w cat st).2 = none) : runVariantsLoop w cat = true := by
  by_contra hne
  have hloop : runVariantsLoop w cat = false := by
    cases hlp : runVariantsLoop w cat
    · rfl
    · exact absurd hlp hne
  simp only [hlsTryBody, hlsMainStages, hloop, Bool.false_eq_true, if_false] at h
  split at h
  · simp at h
  · simp at h

/-- C4 (amended): streaming-mode encoder invocations pass a hard 3600
second timeout — a runtime above the bound is forcibly terminated,
reported as a timeout, and fails the job; independent-mode invocations
pass no timeout and always run to process completion, however long the
encoder takes. -/
theorem encoder_timeout_by_mode :
    (∀ b : EncBehavior, 3600 < b.runtime → hlsFfmpegRun b = RunOutcome.timedOut) ∧
    (∀ (w : HLSWorld) (cat : Catalog) (st : HLSState),
      (∃ kc ∈ cat, 3600 < (w.enc kc.1).runtime) →
      (processToHLS w cat st).2.video.processing_status = "failed") ∧
    (∀ b : EncBehavior, videosFfmpegRun b = RunOutcome.finished b.exitCode b.stderr) := by
  refine ⟨?_, ?_, ?_⟩
  · intro b hb
    show (if 3600 < b.runtime then RunOutcome.timedOut
      else RunOutcome.finished b.exitCode b.stderr) = RunOutcome.timedOut
    rw [if_pos hb]
  · rintro w cat st ⟨kc, hkc, hrt⟩
    rcases hlsTryBody_cases w cat st with ⟨m, hm, _⟩ | ⟨hnone, _⟩
    · exact (processToHLS_of_err w cat st m hm).1
    · exfalso
      obtain ⟨h1, _⟩ := (runVariantsLoop_true_iff w cat).mp
        (hlsTryBody_none_loop w cat st hnone) kc hkc
      omega
  · intro b
    rfl

/-- World of the C4 counterexample: an independent-mode encode running
for 7200 seconds with exit code 0. -/
def wC4 : VWorld :=
  { useS3 := false, inputIsS3 := false, srcBase := "clip", probe := none,
    enc := fun _ => ⟨7200, 0, ""⟩, outSize := fun _ => 9, uploadOk := fun _ => true }

/-- Catalog of the C4 counterexample. -/
def catC4 : Catalog := [("480p", ⟨854, 480, "1000k"⟩)]

/-- C4 counterexample: an independent-mode encoder invocation whose
runtime (7200 s) exceeds 3600 s runs to completion — `subprocess.run` is
called with no timeout — and the job completes normally instead of the
invocation being terminated and reported as a timeout.  The claim that
every encoder invocation in both modes has a 3600-second hard ceiling is
false. -/
theorem unbounded_independent_encoder_counterexample :
    videosFfmpegRun ⟨7200, 0, ""⟩ = RunOutcome.finished 0 "" ∧
    (processResolutions wC4 catC4 (initVState wC4 4)).2.video.processing_status
      = "completed" :=
  ⟨rfl, rfl⟩

/-- World of the C4 witness: a streaming-mode encode needing 7200 s. -/
def wC4h : HLSWorld :=
  { downloadOk := true, probe := none, enc := fun _ => ⟨7200, 0, ""⟩,
    segs := fun _ => 0, uploadOk := fun _ => true }

/-- Catalog of the C4 witness. -/
def catC4h : Catalog := [("480p", ⟨854, 480, "1000k"⟩)]

/-- C4 witness: the amended theorem evaluated concretely — a 3601-second
behaviour times out under the streaming invocation, and a streaming run
containing a 7200-second encode ends failed. -/
theorem encoder_timeout_by_mode_witness :
    hlsFfmpegRun ⟨3601, 0, ""⟩ = RunOutcome.timedOut ∧
    (processToHLS wC4h catC4h (initHLSState 5)).2.video.processing_status = "failed" :=
  ⟨encoder_timeout_by_mode.1 ⟨3601, 0, ""⟩ (by decide),
   encoder_timeout_by_mode.2.1 wC4h catC4h (initHLSState 5)
     ⟨("480p", ⟨854, 480, "1000k"⟩), by decide, by decide⟩⟩

/-- World of the C5 counterexample: only the master playlist's own upload
succeeds; the variant playlist upload fails. -/
def wC5 : HLSWorld :=
  { downloadOk := true, probe := none, enc := fun _ => ⟨60, 0, ""⟩,
    segs := fun _ => 1, uploadOk := fun s => decide (s = masterKey 1) }

/-- Catalog of the C5 counterexample and witness. -/
def catC5 : Catalog := [("480p", ⟨854, 480, "1000k"⟩)]

/-- C5 counterexample: the stage-out fails partway (after the master
upload), the job ends `failed`, yet the job still carries the master
manifest key from that run.  The claim that the key is persisted only on
full success is false. -/
theorem master_key_persisted_on_partial_failure_counterexample :
    (processToHLS wC5 catC5 (initHLSState 1)).2.video.processing_status = "failed" ∧
    (processToHLS wC5 catC5 (initHLSState 1)).2.video.master_playlist_s3_key = masterKey 1 ∧
    masterKey 1 ≠ "" :=
  ⟨rfl, rfl, by decide⟩

/-- C5 (amended): the master manifest key is persisted on the job as soon
as the master manifest itself uploads successfully — before the variant
manifests and segments are transferred — so it is present whenever
stage-in, all encodes, all bandwidth parses and the master upload
succeed, regardless of how the rest of the stage-out fares. -/
theorem master_key_persisted_when_master_upload_succeeds (w : HLSWorld) (cat : Catalog)
    (vid : Nat) (hdl : w.downloadOk = true)
    (henc : ∀ kc ∈ cat, (w.enc kc.1).runtime ≤ 3600 ∧ (w.enc kc.1).exitCode = 0)
    (hbw : ∀ kc ∈ cat, (bandwidthOf kc.2.bitrate).isSome = true)
    (hup : w.uploadOk (masterKey vid) = true) :
    (processToHLS w cat (initHLSState vid)).2.video.master_playlist_s3_key
      = masterKey vid := by
  rw [processToHLS_master, hlsTryBody_eq_main w cat _ hdl]
  exact hlsMainStages_master w cat (hlsWorkspace (hlsStart (initHLSState vid))) henc hbw hup

/-- World of the C5 witness: every transfer succeeds. -/
def wC5w : HLSWorld :=
  { downloadOk := true, probe := none, enc := fun _ => ⟨60, 0, ""⟩,
    segs := fun _ => 1, uploadOk := fun _ => true }

/-- C5 witness: the amended theorem evaluated on a concrete fully
successful run. -/
theorem master_key_persisted_when_master_upload_succeeds_witness :
    (processToHLS wC5w catC5 (initHLSState 3)).2.video.master_playlist_s3_key
      = masterKey 3 :=
  master_key_persisted_when_master_upload_succeeds wC5w catC5 3 rfl (by decide)
    (by decide) rfl

theorem planVariants_rows_fresh (cat : Catalog) (st : HLSState)
    (h : ∀ rec ∈ st.variants, rec.processing_failed_at = none ∧ rec.error_message = "") :
    ∀ rec ∈ (planVariants cat st).variants,
      rec.processing_failed_at = none ∧ rec.error_message = "" := by
  induction cat generalizing st with
  | nil => exact h
  | cons kc rest ih =>
    refine ih (getOrCreateVariant kc.1 kc.2 st) ?_
    intro rec hrec
    unfold getOrCreateVariant at hrec
    rcases hgoc : findVariant kc.1 st.variants with _ | r
    · rw [hgoc] at hrec
      rcases List.mem_append.mp hrec with h1 | h1
      · exact h rec h1
      · rw [List.mem_singleton.mp h1]
        exact ⟨rfl, rfl⟩
    · rw [hgoc] at hrec
      exact h rec hrec

/-- C6 (amended): when the encoder or a transfer fails for a rendition in
independent mode, that rendition's row is marked failed with a non-empty
error detail; in streaming mode, an encoder failure aborts the run
without touching any variant row — no failed timestamp and no error
detail are recorded on the variants. -/
theorem rendition_failure_marking_by_mode :
    (∀ (w : VWorld) (cat : Catalog) (vid : Nat), (cat.map Prod.fst).Nodup →
      ∀ kc ∈ cat, vStepOk w vid kc.1 = false →
      ∃ rec, findVRes kc.1 (processResolutions w cat (initVState w vid)).2.table = some rec ∧
        rec.processing_failed_at.isSome = true ∧
        ∃ m, rec.error_message = some m ∧ m ≠ "") ∧
    (∀ (w : HLSWorld) (cat : Catalog) (vid : Nat),
      w.downloadOk = true → runVariantsLoop w cat = false →
      ∀ rec ∈ (processToHLS w cat (initHLSState vid)).2.variants,
        rec.processing_failed_at = none ∧ rec.error_message = "") := by
  constructor
  · intro w cat vid hnd kc hkc hnok
    obtain ⟨_, _, h3, _, _, _⟩ :=
      processResolutions_spec w cat (initVState w vid) hnd rfl (initVState_live_main w vid)
    rw [show (initVState w vid).video.id = vid from rfl] at h3
    obtain ⟨rec, hfind, _, hfailed, herr⟩ := h3 kc hkc
    refine ⟨rec, hfind, ?_, herr hnok⟩
    rw [hfailed, hnok]
    rfl
  · intro w cat vid hdl hloop
    have hvar : (processToHLS w cat (initHLSState vid)).2.variants
        = (planVariants cat (applyProbe w.probe
            (hlsWorkspace (hlsStart (initHLSState vid))))).variants := by
      unfold processToHLS
      rw [hlsTryBody_eq_main w cat _ hdl]
      simp only [hlsMainStages, hloop, Bool.false_eq_true, if_false]
    rw [hvar]
    refine planVariants_rows_fresh cat _ ?_
    intro rec hrec
    rw [applyProbe_variants] at hrec
    have hrec2 : rec ∈ ([] : List HLSVariantRec) := hrec
    simp at hrec2

/-- World of the C6 counterexample: the streaming encode fails with exit
code 1. -/
def wC6 : HLSWorld :=
  { downloadOk := true, probe := none, enc := fun _ => ⟨5, 1, "boom"⟩,
    segs := fun _ => 0, uploadOk := fun _ => true }

/-- Catalog of the C6 counterexample. -/
def catC6 : Catalog := [("720p", ⟨1280, 720, "2500k"⟩)]

/-- C6 counterexample: the encoder fails for the 720p rendition of a
streaming run, the job ends `failed`, yet the variant row keeps no
failed timestamp and no error detail.  The claim that in both modes a
failing rendition's record transitions to failed is false. -/
theorem hls_variant_not_marked_failed_counterexample :
    (wC6.enc "720p").exitCode = 1 ∧
    (processToHLS wC6 catC6 (initHLSState 1)).2.video.processing_status = "failed" ∧
    ((processToHLS wC6 catC6 (initHLSState 1)).2.variants.map
      (fun r => (r.resolution, r.processing_failed_at, r.error_message)))
      = [("720p", none, "")] :=
  ⟨rfl, rfl, rfl⟩

/-- World of the C6 witness: the independent-mode encode fails. -/
def wC6v : VWorld :=
  { useS3 := false, inputIsS3 := false, srcBase := "clip", probe := none,
    enc := fun _ => ⟨5, 1, "boom"⟩, outSize := fun _ => 0, uploadOk := fun _ => true }

/-- Catalog of the C6 witness. -/
def catC6v : Catalog := [("480p", ⟨854, 480, "1000k"⟩)]

/-- C6 witness: the independent-mode half of the amended theorem
evaluated on a concrete failing encode. -/
theorem rendition_failure_marking_by_mode_witness :
    ∃ rec, findVRes "480p"
        (processResolutions wC6v catC6v (initVState wC6v 9)).2.table = some rec ∧
      rec.processing_failed_at.isSome = true ∧
      ∃ m, rec.error_message = some m ∧ m ≠ "" :=
  rendition_failure_marking_by_mode.1 wC6v catC6v 9 (by decide)
    ("480p", ⟨854, 480, "1000k"⟩) (by decide) (by decide)

/-- C7 (amended): the main scratch workspace is always deleted by the
time a run returns, in both modes and on every path; but in independent
mode the per-rendition scratch output directory (created when persisting
to the object store) survives the run unless that rendition's encode and
upload both succeed — it is guaranteed deleted only on that rendition's
full success. -/
theorem scratch_workspace_cleanup_by_mode :
    (∀ (w : HLSWorld) (cat : Catalog) (st : HLSState),
      ScratchDir.hlsMain ∉ (processToHLS w cat st).2.live) ∧
    (∀ (w : VWorld) (cat : Catalog) (st : VState),
      ScratchDir.videosMain ∉ (processResolutions w cat st).2.live) ∧
    (∀ (w : VWorld) (cat : Catalog) (vid : Nat), (cat.map Prod.fst).Nodup →
      ∀ kc ∈ cat, vStepOk w vid kc.1 = true →
      ScratchDir.videosOut kc.1 ∉
        (processResolutions w cat (initVState w vid)).2.live) := by
  refine ⟨?_, ?_, ?_⟩
  · intro w cat st hmem
    unfold processToHLS at hmem
    obtain ⟨_, hne⟩ := List.mem_filter.mp hmem
    simp at hne
  · intro w cat st hmem
    unfold processResolutions at hmem
    obtain ⟨_, hne⟩ := List.mem_filter.mp hmem
    simp at hne
  · intro w cat vid hnd kc hkc hok hmem
    obtain ⟨_, _, _, _, _, h6⟩ :=
      processResolutions_spec w cat (initVState w vid) hnd rfl (initVState_live_main w vid)
    rw [show (initVState w vid).video.id = vid from rfl] at h6
    obtain ⟨k2, _, hdk, hnok⟩ := h6 (ScratchDir.videosOut kc.1) hmem
    have : kc.1 = k2 := by
      simpa using hdk
    rw [← this] at hnok
    rw [hok] at hnok
    exact absurd hnok (by decide)

/-- World of the C7 counterexample: S3 persistence with a failing upload
for the only rendition. -/
def wC7 : VWorld :=
  { useS3 := true, inputIsS3 := true, srcBase := "clip", probe := none,
    enc := fun _ => ⟨60, 0, ""⟩, outSize := fun _ => 7, uploadOk := fun _ => false }

/-- Catalog of the C7 counterexample and witness. -/
def catC7 : Catalog := [("480p", ⟨854, 480, "1000k"⟩)]

/-- C7 counterexample: a run whose rendition upload fails returns with
the per-rendition scratch output directory still existing — a scratch
workspace created by the run is not deleted on this exit path.  The
claim that every scratch workspace the run creates is deleted by the
time the run returns, on every exit path, is false. -/
theorem per_rendition_scratch_leak_counterexample :
    ScratchDir.videosOut "480p" ∈
      (processResolutions wC7 catC7 (initVState wC7 3)).2.live ∧
    (processResolutions wC7 catC7 (initVState wC7 3)).1 = false := by
  decide

/-- World of the C7 witness: identical to the counterexample's world but
with uploads succeeding. -/
def wC7w : VWorld :=
  { useS3 := true, inputIsS3 := true, srcBase := "clip", probe := none,
    enc := fun _ => ⟨60, 0, ""⟩, outSize := fun _ => 7, uploadOk := fun _ => true }

/-- C7 witness: the per-rendition-success half of the amended theorem
evaluated on a concrete fully successful run. -/
theorem scratch_workspace_cleanup_by_mode_witness :
    ScratchDir.videosOut "480p" ∉
      (processResolutions wC7w catC7 (initVState wC7w 3)).2.live :=
  scratch_workspace_cleanup_by_mode.2.2 wC7w catC7 3 (by decide)
    ("480p", ⟨854, 480, "1000k"⟩) (by decide) (by decide)

/-- C8: the rendition planners are idempotent — running the planner any
positive number of times for the same job and catalog leaves exactly one
rendition row per catalog label and never more than one row per label,
in both the HLS variant table and the independent-mode resolution
table. -/
theorem planner_idempotent (cat : Catalog) (vid : Nat) (n : Nat) (hn : 1 ≤ n)
    (w : VWorld) :
    (∀ kc ∈ cat, countVariant kc.1 (planIter cat n (initHLSState vid)).variants = 1) ∧
    (∀ j, countVariant j (planIter cat n (initHLSState vid)).variants ≤ 1) ∧
    (∀ kc ∈ cat, countVRes kc.1 (planVResIter cat n (initVState w vid)).table = 1) ∧
    (∀ j, countVRes j (planVResIter cat n (initVState w vid)).table ≤ 1) := by
  refine ⟨?_, ?_, ?_, ?_⟩
  · intro kc hkc
    rw [countVariant_planIter cat kc.1 n hn (initHLSState vid),
      if_pos (List.mem_map_of_mem Prod.fst hkc)]
    rfl
  · intro j
    rw [countVariant_planIter cat j n hn (initHLSState vid)]
    split
    · exact (by decide : max 0 1 ≤ 1)
    · exact (by decide : (0 : Nat) ≤ 1)
  · intro kc hkc
    rw [countVRes_planIter cat kc.1 n hn (initVState w vid),
      if_pos (List.mem_map_of_mem Prod.fst hkc)]
    rfl
  · intro j
    rw [countVRes_planIter cat j n hn (initVState w vid)]
    split
    · exact (by decide : max 0 1 ≤ 1)
    · exact (by decide : (0 : Nat) ≤ 1)

/-- World of the C8 witness. -/
def wC8 : VWorld :=
  { useS3 := false, inputIsS3 := false, srcBase := "clip", probe := none,
    enc := fun _ => ⟨60, 0, ""⟩, outSize := fun _ => 0, uploadOk := fun _ => true }

/-- Catalog of the C8 witness. -/
def catC8 : Catalog := [("480p", ⟨854, 480, "1000k"⟩), ("720p", ⟨1280, 720, "2500k"⟩)]

/-- C8 witness: running each planner twice on a two-preset catalog leaves
exactly one row per label. -/
theorem planner_idempotent_witness :
    countVariant "480p" (planIter catC8 2 (initHLSState 1)).variants = 1 ∧
    countVRes "720p" (planVResIter catC8 2 (initVState wC8 1)).table = 1 :=
  ⟨(planner_idempotent catC8 1 2 (by decide) wC8).1 ("480p", ⟨854, 480, "1000k"⟩)
      (by decide),
   (planner_idempotent catC8 1 2 (by decide) wC8).2.2.1 ("720p", ⟨1280, 720, "2500k"⟩)
      (by decide)⟩

end VideoApp
